import Mathlib

/-!
Verification of the kettlingar RPC core (src/kettlingar/rpckitten.py).

Shallow embedding conventions:
* Python `bytes` values are `List Nat` with every element < 256.
* Python `str` values are `List Nat` of Unicode code points.
* Fallible Python code (code that may raise) is modelled with `Option` / `Except`.
* Python exceptions relevant to the dispatch ladders are an explicit inductive.
-/

namespace Kettlingar

/-- Code points of a (ASCII) string literal, used to embed Python string constants. -/
def strCps (s : String) : List Nat := s.data.map Char.toNat

/-- ASCII whitespace accepted by Python's `int()` around a numeric literal
(the exotic Unicode space code points are not exercised by this code base). -/
def isPyWs (c : Nat) : Bool := c = 9 || c = 10 || c = 11 || c = 12 || c = 13 || c = 32

/-- Strip leading and trailing whitespace, as `int()` does before parsing. -/
def stripWs (s : List Nat) : List Nat :=
  ((s.dropWhile isPyWs).reverse.dropWhile isPyWs).reverse

/-- Value of one digit character in bases up to 36 (`0-9`, `a-z`, `A-Z`). -/
def digitValAny (c : Nat) : Option Nat :=
  if 48 ≤ c ∧ c ≤ 57 then some (c - 48)
  else if 97 ≤ c ∧ c ≤ 122 then some (c - 87)
  else if 65 ≤ c ∧ c ≤ 90 then some (c - 55)
  else none

/-- Value of one digit character in the given base, as `int(str, base)` accepts it. -/
def digitVal (base c : Nat) : Option Nat :=
  (digitValAny c).bind (fun v => if v < base then some v else none)

/-- Digit-run parser for `int(str, base)`: `undOk` tells whether an underscore may
appear next (Python allows single underscores between digits, and one directly
after a base marker), `endOk` whether the run may stop here. -/
def parseDigits (base : Nat) : List Nat → Bool → Bool → Nat → Option Nat
  | [], _, endOk, acc => if endOk then some acc else none
  | c :: cs, undOk, _, acc =>
    if c = 95 then
      if undOk then parseDigits base cs false false acc else none
    else
      match digitVal base c with
      | some v => parseDigits base cs true true (acc * base + v)
      | none => none

/-- Base-marker removal for `int(str, base)`: `0x`/`0X` for 16, `0o`/`0O` for 8,
`0b`/`0B` for 2; the returned flag says whether a marker was removed. -/
def dropBaseMarker (base : Nat) (s : List Nat) : Bool × List Nat :=
  match s with
  | 48 :: c :: rest =>
    if base = 16 ∧ (c = 120 ∨ c = 88) then (true, rest)
    else if base = 8 ∧ (c = 111 ∨ c = 79) then (true, rest)
    else if base = 2 ∧ (c = 98 ∨ c = 66) then (true, rest)
    else (false, s)
  | _ => (false, s)

/-- Model of Python's `int(s, base)` on a string/bytes argument: optional
whitespace, optional sign, optional base marker, then digits. `none` models a
raised `ValueError`. -/
def pyIntParse (base : Nat) (s0 : List Nat) : Option Int :=
  let s := stripWs s0
  match s with
  | [] => none
  | c :: rest =>
    let signed : Bool × List Nat :=
      if c = 45 then (true, rest) else if c = 43 then (false, rest) else (false, s)
    let pre := dropBaseMarker base signed.2
    (parseDigits base pre.2 pre.1 false 0).map
      (fun n => if signed.1 then -(n : Int) else (n : Int))

/-- Hexadecimal digit character (lower case), as `b'%x'` prints it. -/
def hexChar (d : Nat) : Nat := if d < 10 then 48 + d else 87 + d

/-- Model of `b'%x' % n`: lower-case hexadecimal rendering of a natural. -/
def natToHex (n : Nat) : List Nat :=
  if _h : n < 16 then [hexChar n] else natToHex (n / 16) ++ [hexChar (n % 16)]
  decreasing_by exact Nat.div_lt_self (by omega) (by omega)

/-- Decimal digit character. -/
def decChar (d : Nat) : Nat := 48 + d

/-- Decimal rendering of a natural, as `%d` prints it. -/
def natToDec (n : Nat) : List Nat :=
  if _h : n < 10 then [decChar n] else natToDec (n / 10) ++ [decChar (n % 10)]
  decreasing_by exact Nat.div_lt_self (by omega) (by omega)

/-- Model of `'%d' % i` for integers (adds a sign for negatives). -/
def intToDec (i : Int) : List Nat :=
  if i < 0 then 45 :: natToDec (-i).toNat else natToDec i.toNat

/-- First split of a byte string at `\r\n`, as `buffer.split(b'\x5cr\x5cn', 1)`
behaves: `none` when no `\r\n` occurs (the `ValueError` branch). -/
def splitCRLF : List Nat → Option (List Nat × List Nat)
  | [] => none
  | c :: rest =>
    if c = 13 ∧ rest.head? = some 10 then some ([], rest.tail)
    else (splitCRLF rest).map (fun p => (c :: p.1, p.2))

/-- Does the byte string contain an adjacent `\r\n` pair? -/
def containsCRLF : List Nat → Bool
  | [] => false
  | c :: rest => (c = 13 && rest.head? = some 10) || containsCRLF rest

/-- Python slice `data[:i]` for a possibly negative bound. -/
def pySliceTo (data : List Nat) (i : Int) : List Nat :=
  if 0 ≤ i then data.take i.toNat else data.take (data.length - (-i).toNat)

/-- Python slice `data[i:]` for a possibly negative bound. -/
def pySliceFrom (data : List Nat) (i : Int) : List Nat :=
  if 0 ≤ i then data.drop i.toNat else data.drop (data.length - (-i).toNat)

/-- Model of `RPCKitten._http11_chunk`: split the buffer at the first `\r\n`,
parse the first part as a hexadecimal length `ln`, and when at least `ln+2`
bytes follow return `(data[:ln], data[ln+2:])`; on any failure return
`(None, buffer)`. -/
def http11Chunk (buffer : List Nat) : Option (List Nat) × List Nat :=
  match splitCRLF buffer with
  | none => (none, buffer)
  | some (lnStr, data) =>
    match pyIntParse 16 lnStr with
    | none => (none, buffer)
    | some ln =>
      if (data.length : Int) ≥ ln + 2 then
        (some (pySliceTo data ln), pySliceFrom data (ln + 2))
      else (none, buffer)

/-- True when the byte string consists only of hexadecimal digit characters
(and is nonempty): the claim's notion of a plain hexadecimal length line. -/
def isHexDigitString (s : List Nat) : Bool :=
  !s.isEmpty && s.all (fun c => (digitVal 16 c).isSome)

/-- Python values that can travel through the JSON codec of `rpckitten.py`:
the JSON universe (minus floats, which this code base never serializes)
plus `bytes` leaves. Strings are lists of code points, bytes lists of bytes. -/
inductive PyVal where
  | pnone
  | pbool (b : Bool)
  | pint (n : Int)
  | pstr (s : List Nat)
  | pbytes (b : List Nat)
  | plist (xs : List PyVal)
  | pdict (kvs : List (List Nat × PyVal))

/-- Python truthiness for the values of `PyVal`. -/
def pyTruthy : PyVal → Bool
  | .pnone => false
  | .pbool b => b
  | .pint n => n ≠ 0
  | .pstr s => !s.isEmpty
  | .pbytes b => !b.isEmpty
  | .plist xs => !xs.isEmpty
  | .pdict kvs => !kvs.isEmpty

/-- UTF-8 continuation byte test. -/
def isCont (b : Nat) : Bool := 128 ≤ b && b < 192

/-- Strict UTF-8 decoding of one leading character: the decoded code point and
the remaining bytes, or `none` on a malformed head (rejecting overlong forms,
surrogates and values above U+10FFFF). -/
def utf8DecodeChar : List Nat → Option (Nat × List Nat)
  | [] => none
  | b :: rest =>
    if b < 128 then some (b, rest)
    else if 194 ≤ b && b < 224 then
      match rest with
      | b2 :: r2 =>
        if isCont b2 then some ((b - 192) * 64 + (b2 - 128), r2) else none
      | [] => none
    else if 224 ≤ b && b < 240 then
      match rest with
      | b2 :: b3 :: r2 =>
        let v := (b - 224) * 4096 + (b2 - 128) * 64 + (b3 - 128)
        if isCont b2 && isCont b3 && decide (2048 ≤ v) && !(decide (55296 ≤ v) && decide (v ≤ 57343)) then
          some (v, r2)
        else none
      | _ => none
    else if 240 ≤ b && b < 245 then
      match rest with
      | b2 :: b3 :: b4 :: r2 =>
        let v := (b - 240) * 262144 + (b2 - 128) * 4096 + (b3 - 128) * 64 + (b4 - 128)
        if isCont b2 && isCont b3 && isCont b4 && decide (65536 ≤ v) && decide (v < 1114112) then
          some (v, r2)
        else none
      | _ => none
    else none

/-- Character-by-character UTF-8 decoding driven by a step budget; each step
consumes at least one byte, so a budget of the input length is always enough
(`utf8DecodeChar_length` below). -/
def utf8DecodeGo : Nat → List Nat → Option (List Nat)
  | _, [] => some []
  | 0, _ :: _ => none
  | fuel + 1, b :: rest =>
    match utf8DecodeChar (b :: rest) with
    | some (v, r2) => (utf8DecodeGo fuel r2).map (v :: ·)
    | none => none

/-- Strict UTF-8 decoding of a byte list to code points, as `str(b, 'utf-8')`
performs it; `none` models a raised `UnicodeDecodeError`. -/
def utf8Decode (bs : List Nat) : Option (List Nat) := utf8DecodeGo bs.length bs

/-- UTF-8 encoding of one code point; `none` models the `UnicodeEncodeError`
raised for surrogates and out-of-range values. -/
def utf8EncodeChar (c : Nat) : Option (List Nat) :=
  if c < 128 then some [c]
  else if c < 2048 then some [192 + c / 64, 128 + c % 64]
  else if c < 65536 then
    if 55296 ≤ c ∧ c ≤ 57343 then none
    else some [224 + c / 4096, 128 + c / 64 % 64, 128 + c % 64]
  else if c < 1114112 then
    some [240 + c / 262144, 128 + c / 4096 % 64, 128 + c / 64 % 64, 128 + c % 64]
  else none

/-- UTF-8 encoding of a code-point list, as `bytes(s, 'utf-8')` performs it. -/
def utf8Encode : List Nat → Option (List Nat)
  | [] => some []
  | c :: cs =>
    match utf8EncodeChar c, utf8Encode cs with
    | some e, some r => some (e ++ r)
    | _, _ => none

/-- Character of one base64 sextet (standard alphabet, as `base64.b64encode`). -/
def b64Char (v : Nat) : Nat :=
  if v < 26 then 65 + v
  else if v < 52 then 97 + (v - 26)
  else if v < 62 then 48 + (v - 52)
  else if v = 62 then 43
  else 47

/-- Sextet of one base64 character; `none` for non-alphabet characters. -/
def b64CharVal (c : Nat) : Option Nat :=
  if 65 ≤ c ∧ c ≤ 90 then some (c - 65)
  else if 97 ≤ c ∧ c ≤ 122 then some (c - 97 + 26)
  else if 48 ≤ c ∧ c ≤ 57 then some (c - 48 + 52)
  else if c = 43 then some 62
  else if c = 47 then some 63
  else none

/-- Model of `base64.b64encode` over byte lists (standard alphabet, `=` pad). -/
def b64encode : List Nat → List Nat
  | a :: b :: c :: t =>
    b64Char (a / 4) :: b64Char (a % 4 * 16 + b / 16) ::
      b64Char (b % 16 * 4 + c / 64) :: b64Char (c % 64) :: b64encode t
  | [a, b] => [b64Char (a / 4), b64Char (a % 4 * 16 + b / 16), b64Char (b % 16 * 4), 61]
  | [a] => [b64Char (a / 4), b64Char (a % 4 * 16), 61, 61]
  | [] => []

/-- Model of `base64.b64decode` on well-padded input; malformed input yields
`none` (the raised `binascii.Error`; the real function is lenient about a few
kinds of stray characters which this code base never produces). -/
def b64decode : List Nat → Option (List Nat)
  | [] => some []
  | c1 :: c2 :: c3 :: c4 :: t =>
    match b64CharVal c1, b64CharVal c2 with
    | some v1, some v2 =>
      if c3 = 61 ∧ c4 = 61 ∧ t = [] then
        some [v1 * 4 + v2 / 16]
      else if c4 = 61 ∧ t = [] then
        match b64CharVal c3 with
        | some v3 => some [v1 * 4 + v2 / 16, v2 % 16 * 16 + v3 / 4]
        | none => none
      else
        match b64CharVal c3, b64CharVal c4 with
        | some v3, some v4 =>
          (b64decode t).map (fun r => (v1 * 4 + v2 / 16) :: (v2 % 16 * 16 + v3 / 4) :: (v3 % 4 * 64 + v4) :: r)
        | _, _ => none
    | _, _ => none
  | _ => none

/-- JSON values, the image of `json.dumps`/`json.loads` on this code base
(floats never occur here). -/
inductive JVal where
  | jnull
  | jbool (b : Bool)
  | jint (n : Int)
  | jstr (s : List Nat)
  | jarr (xs : List JVal)
  | jobj (kvs : List (List Nat × JVal))

/-- The `__base64__` extension key of `to_json`/`from_json`. -/
def kB64 : List Nat := strCps "__base64__"

/-- The `__bytes__` extension key of `to_json`/`from_json`. -/
def kBytes : List Nat := strCps "__bytes__"

mutual

/-- Model of `RPCKitten.to_json` at the JSON-value level (the `json.dumps`
text layer is treated as a faithful bridge): the `default=` hook turns bytes
into a `__bytes__` object when friendly mode is on and the bytes decode as
UTF-8, else into a `__base64__` object. -/
def to_json_tree (friendly : Bool) : PyVal → JVal
  | .pnone => .jnull
  | .pbool b => .jbool b
  | .pint n => .jint n
  | .pstr s => .jstr s
  | .pbytes b =>
    match (if friendly then utf8Decode b else none) with
    | some s => .jobj [(kBytes, .jstr s)]
    | none => .jobj [(kB64, .jstr (b64encode b))]
  | .plist xs => .jarr (to_json_tree_list friendly xs)
  | .pdict kvs => .jobj (to_json_tree_kvs friendly kvs)

/-- `to_json_tree` mapped over array elements. -/
def to_json_tree_list (friendly : Bool) : List PyVal → List JVal
  | [] => []
  | v :: vs => to_json_tree friendly v :: to_json_tree_list friendly vs

/-- `to_json_tree` mapped over object entries. -/
def to_json_tree_kvs (friendly : Bool) : List (List Nat × PyVal) → List (List Nat × JVal)
  | [] => []
  | (k, v) :: r => (k, to_json_tree friendly v) :: to_json_tree_kvs friendly r

end

/-- `b64decode(data)` as called by the `from_json` object hook: accepts a str
or bytes argument, anything else raises `TypeError` (modelled as `none`). -/
def pyB64decodeVal : PyVal → Option PyVal
  | .pstr s => (b64decode s).map .pbytes
  | .pbytes s => (b64decode s).map .pbytes
  | _ => none

/-- `bytes(data, 'utf-8')` as called by the `from_json` object hook: accepts
a str argument, anything else raises `TypeError` (modelled as `none`). -/
def pyUtf8EncodeVal : PyVal → Option PyVal
  | .pstr s => (utf8Encode s).map .pbytes
  | _ => none

/-- The `object_hook` of `RPCKitten.from_json`: a one-entry mapping whose key
is `__base64__` or `__bytes__` and whose value is truthy is replaced by the
decoded bytes; every other mapping passes through. -/
def objectHook (kvs : List (List Nat × PyVal)) : Option PyVal :=
  match kvs with
  | [(k, v)] =>
    if k = kB64 then (if pyTruthy v then pyB64decodeVal v else some (.pdict kvs))
    else if k = kBytes then (if pyTruthy v then pyUtf8EncodeVal v else some (.pdict kvs))
    else some (.pdict kvs)
  | _ => some (.pdict kvs)

mutual

/-- Model of `RPCKitten.from_json` at the JSON-value level: `json.loads`
applies the object hook to every decoded object, innermost first. -/
def from_json_tree : JVal → Option PyVal
  | .jnull => some .pnone
  | .jbool b => some (.pbool b)
  | .jint n => some (.pint n)
  | .jstr s => some (.pstr s)
  | .jarr xs => (from_json_tree_list xs).map .plist
  | .jobj kvs => (from_json_tree_kvs kvs).bind objectHook

/-- `from_json_tree` mapped over array elements. -/
def from_json_tree_list : List JVal → Option (List PyVal)
  | [] => some []
  | v :: vs =>
    match from_json_tree v, from_json_tree_list vs with
    | some a, some r => some (a :: r)
    | _, _ => none

/-- `from_json_tree` mapped over object entries (values decoded innermost
first, exactly as `json.loads` builds objects bottom-up). -/
def from_json_tree_kvs : List (List Nat × JVal) → Option (List (List Nat × PyVal))
  | [] => some []
  | (k, v) :: r =>
    match from_json_tree v, from_json_tree_kvs r with
    | some a, some rr => some ((k, a) :: rr)
    | _, _ => none

end

/-- A one-entry mapping that collides with the codec's extension markers. -/
def magicSingleton : List (List Nat × PyVal) → Bool
  | [(k, v)] => (k = kB64 || k = kBytes) && pyTruthy v
  | _ => false

mutual

/-- Well-formedness for the round-trip statement: every bytes leaf is a
nonempty list of bytes, and no mapping collides with the extension markers. -/
def wfVal : PyVal → Bool
  | .pnone => true
  | .pbool _ => true
  | .pint _ => true
  | .pstr _ => true
  | .pbytes b => !b.isEmpty && b.all (· < 256)
  | .plist xs => wfValList xs
  | .pdict kvs => !magicSingleton kvs && wfValKVs kvs

/-- `wfVal` over list elements. -/
def wfValList : List PyVal → Bool
  | [] => true
  | v :: vs => wfVal v && wfValList vs

/-- `wfVal` over mapping entries. -/
def wfValKVs : List (List Nat × PyVal) → Bool
  | [] => true
  | (_, v) :: r => wfVal v && wfValKVs r

end

/-- Bytes written by `RPCKitten._send_chunked` for one payload:
`_HTTP_CHUNK_BEG % len(data)`, the payload, `_HTTP_CHUNK_END`. -/
def sendChunked (data : List Nat) : List Nat :=
  natToHex data.length ++ [13, 10] ++ data ++ [13, 10]

/-- The message of the `IOError` raised by the chunk decoder when the
zero-length end-of-stream chunk never arrived. -/
def incompleteStreamMsg : List Nat :=
  strCps "Incomplete result, missing end-of-stream marker"

/-- The key of the extra first item yielded when a reply carried descriptors. -/
def receivedFdsKey : List Nat := strCps "received_fds"

/-- Chunks cut by repeatedly applying `_http11_chunk` until it fails,
together with the leftover buffer (the inner cutting steps of
`decoded_chunk_generator`). -/
def drainChunks (buffer : List Nat) : List (List Nat) × List Nat :=
  match h : http11Chunk buffer with
  | (some c, rest) =>
    let r := drainChunks rest
    (c :: r.1, r.2)
  | (none, _) => ([], buffer)
termination_by buffer.length
decreasing_by
  have splen : ∀ s a b, splitCRLF s = some (a, b) → s.length = a.length + 2 + b.length := by
    intro s
    induction s with
    | nil => intro a b hh; simp [splitCRLF] at hh
    | cons c2 t ih =>
      intro a b hh
      simp only [splitCRLF] at hh
      by_cases hc : c2 = 13 ∧ t.head? = some 10
      · rw [if_pos hc] at hh
        simp at hh
        rcases hh with ⟨h1, h2⟩
        subst h1; subst h2
        rcases t with _ | ⟨x, t2⟩
        · simp at hc
        · simp; omega
      · rw [if_neg hc] at hh
        rcases hs : splitCRLF t with _ | ⟨p1, p2⟩
        · rw [hs] at hh; simp at hh
        · rw [hs] at hh; simp at hh
          rcases hh with ⟨h1, h2⟩
          subst h1; subst h2
          have := ih p1 p2 hs
          simp [List.length_cons]
          omega
  have hps : ∀ d i, (pySliceFrom d i).length ≤ d.length := by
    intro d i
    unfold pySliceFrom
    split <;> simp
  simp only [http11Chunk] at h
  rcases hs : splitCRLF buffer with _ | ⟨lnS, data⟩
  · rw [hs] at h; simp at h
  · rw [hs] at h
    dsimp only at h
    rcases hp : pyIntParse 16 lnS with _ | ln
    · rw [hp] at h; simp at h
    · rw [hp] at h
      dsimp only at h
      by_cases hlen : (data.length : Int) ≥ ln + 2
      · rw [if_pos hlen] at h
        have h2 : rest = pySliceFrom data (ln + 2) := by
          cases h; rfl
        have hb := splen buffer lnS data hs
        have hd := hps data (ln + 2)
        rw [h2]
        omega
      · rw [if_neg hlen] at h; simp at h

/-- The `finished` flag after a run of cut chunks: an empty chunk marks a
finished stream, a later data chunk clears the mark again. -/
def finishedAfter (finished : Bool) (cs : List (List Nat)) : Bool :=
  match cs.getLast? with
  | some lastC => lastC.isEmpty
  | none => finished

/-- The read/cut loop of `decoded_chunk_generator` (in `_chunk_decoder`):
cut as many chunks as the buffer holds, yield the decoded value of every
nonempty one, track the `finished` flag, then extend the buffer with the
next read; an exhausted reader (or an empty read, i.e. EOF) ends the loop.
Returns the yielded values and the final `finished` flag; a `false` flag
means the generator then raises `IOError(incompleteStreamMsg)`. -/
def chunkLoopReads (decode : List Nat → PyVal) :
    List Nat → List (List Nat) → Bool → List PyVal × Bool
  | buffer, reads, finished =>
    let d := drainChunks buffer
    let ys := (d.1.filter (fun c => !c.isEmpty)).map decode
    let fin := finishedAfter finished d.1
    match reads with
    | [] => (ys, fin)
    | r :: rs =>
      if r.isEmpty then (ys, fin)
      else
        let next := chunkLoopReads decode (d.2 ++ r) rs fin
        (ys ++ next.1, next.2)

/-- Model of the generator returned by `RPCKitten._chunk_decoder`: when the
reply carried descriptors it first yields a `received_fds` mapping, then
yields decoded chunks as in `chunkLoopReads`. -/
def chunk_decoder (decode : List Nat → PyVal) (rfds : List Int)
    (buffer : List Nat) (reads : List (List Nat)) : List PyVal × Bool :=
  let pre : List PyVal :=
    if rfds.isEmpty then []
    else [PyVal.pdict [(receivedFdsKey, PyVal.plist (rfds.map PyVal.pint))]]
  let r := chunkLoopReads decode buffer reads false
  (pre ++ r.1, r.2)

/-- Type tags that `guarantee_type` distinguishes (`None`/`'any'`, bool, int,
str, bytes; the final `rule(v)` fallback for other callables is outside the
spec's claims). -/
inductive TypeRule where
  | rNone
  | rAny
  | rBool
  | rInt
  | rStr
  | rBytes

/-- The `TRUE_STRINGS` constant of `RPCKitten`. -/
def TRUE_STRINGS : List (List Nat) :=
  [strCps "true", strCps "t", strCps "yes", strCps "y", strCps "1"]

/-- ASCII lower-casing. (`str.lower` is Unicode-aware, but no non-ASCII code
point lower-cases onto the ASCII letters of `TRUE_STRINGS`, so this is
extensionally adequate for the membership test below.) -/
def asciiLower (s : List Nat) : List Nat :=
  s.map (fun c => if 65 ≤ c ∧ c ≤ 90 then c + 32 else c)

/-- Model of `RPCKitten.Bool`: booleans pass through, a string is true
exactly when its lower-cased form is in `TRUE_STRINGS`, anything else is
its truthiness. -/
def kittenBool : PyVal → Bool
  | .pbool b => b
  | .pstr s => decide (asciiLower s ∈ TRUE_STRINGS)
  | v => pyTruthy v

/-- The int-coercion of `guarantee_type` on a str argument: `0x`/`0o`/`0b`
select base 16/8/2 on the remainder, every other string goes to `int(v)`. -/
def intFromPyStr (s : List Nat) : Option Int :=
  if s.take 2 = strCps "0x" then pyIntParse 16 (s.drop 2)
  else if s.take 2 = strCps "0o" then pyIntParse 8 (s.drop 2)
  else if s.take 2 = strCps "0b" then pyIntParse 2 (s.drop 2)
  else pyIntParse 10 s

/-- Model of `RPCKitten.guarantee_type`; `none` models a raised conversion
error. -/
def guarantee_type (rule : TypeRule) (v : PyVal) : Option PyVal :=
  match rule with
  | .rNone => some v
  | .rAny => some v
  | .rBool => some (.pbool (kittenBool v))
  | .rInt =>
    let v2 : Option PyVal :=
      match v with
      | .pbytes b => (utf8Decode b).map .pstr
      | other => some other
    v2.bind fun v3 =>
      match v3 with
      | .pstr s => (intFromPyStr s).map .pint
      | .pint n => some (.pint n)
      | .pbool b => some (.pint (if b then 1 else 0))
      | _ => none
  | .rStr =>
    match v with
    | .pstr s => some (.pstr s)
    | .pbytes b => (utf8Decode b).map .pstr
    | _ => none
  | .rBytes =>
    match v with
    | .pstr s => (utf8Encode s).map .pbytes
    | .pbytes b => some (.pbytes b)
    | .pint n => if 0 ≤ n then some (.pbytes (List.replicate n.toNat 0)) else none
    | _ => none

/-- The `data` argument of `HttpResult`, keeping Python's str / bytes /
bytearray distinction that the constructor branches on. -/
inductive PyData where
  | dstr (s : List Nat)
  | dbytes (b : List Nat)
  | dbytearray (b : List Nat)
  | dother (v : PyVal)

/-- The stored state of an `HttpResult` (a dict with `mimetype`, `data` and
optional `http_code` / `http_redirect_to` entries). -/
structure HttpResultModel where
  mimetype : Option (List Nat)
  data : PyData
  httpCodeEntry : Option Int
  redirectToEntry : Option (List Nat)

/-- Model of `HttpResult.__init__`; `none` models a raised codec error while
converting `data`. -/
def HttpResult_init (mimetype : Option (List Nat)) (data : PyData)
    (redirect_to : Option (List Nat)) (http_code : Option Int) :
    Option HttpResultModel :=
  let withRedirect : Option Int × Option (List Nat) :=
    match redirect_to with
    | some r => if r.isEmpty then (none, none) else (some 302, some r)
    | none => (none, none)
  let codeEntry : Option Int :=
    match http_code with
    | some c => if c = 0 then withRedirect.1 else some c
    | none => withRedirect.1
  let conv : Option PyData :=
    match mimetype with
    | some mt =>
      if mt.isEmpty then some data
      else if mt.take 5 = strCps "text/" then
        match data with
        | .dbytes b => (utf8Decode b).map .dstr
        | .dbytearray b => (utf8Decode b).map .dstr
        | d => some d
      else
        match data with
        | .dstr s => (utf8Encode s).map .dbytes
        | .dbytearray b => some (.dbytes b)
        | d => some d
    | none => some data
  conv.map fun d => ⟨mimetype, d, codeEntry, withRedirect.2⟩

/-- The `http_code` property: `self.get('http_code', 200)`. -/
def HttpResult_http_code (r : HttpResultModel) : Int :=
  r.httpCodeEntry.getD 200

/-- The Python exceptions distinguished by the dispatch ladders of
`_serve_http` and `_handle_http_request`. -/
inductive PyExc where
  | redirectExc (target : List Nat)
  | needInfoExc (msg : List Nat) (resource : PyVal) (neededVars : List PyVal)
  | permissionErrorExc (msg : List Nat)
  | attributeErrorExc (msg : List Nat)
  | typeErrorExc (msg : List Nat)
  | unicodeDecodeErrorExc (msg : List Nat)
  | valueErrorExc (msg : List Nat)
  | ioErrorExc (msg : List Nat)
  | runtimeErrorExc (msg : List Nat)

/-- `str(e)` for the modelled exceptions. -/
def excMsg : PyExc → List Nat
  | .redirectExc t => t
  | .needInfoExc m _ _ => m
  | .permissionErrorExc m => m
  | .attributeErrorExc m => m
  | .typeErrorExc m => m
  | .unicodeDecodeErrorExc m => m
  | .valueErrorExc m => m
  | .ioErrorExc m => m
  | .runtimeErrorExc m => m

/-- Dict key constants used in response bodies. -/
def kError : List Nat := strCps "error"

/-- Dict key for server stack traces. -/
def kTraceback : List Nat := strCps "traceback"

/-- Dict key of `NeedInfoException.resource`. -/
def kResource : List Nat := strCps "resource"

/-- Dict key of `NeedInfoException.needed_vars`. -/
def kNeededVars : List Nat := strCps "needed_vars"

/-- Dict key of the `_HTTP_MOVED` body. -/
def kRedirect : List Nat := strCps "redirect"

/-- Status code assigned by the `except` ladder of `_serve_http`:
Redirect 302, NeedInfo 423, PermissionError 403, AttributeError 404,
TypeError/UnicodeDecodeError 400, and every other exception (including
ValueError and IOError) 500. -/
def serve_http_exc_status : PyExc → Int
  | .redirectExc _ => 302
  | .needInfoExc _ _ _ => 423
  | .permissionErrorExc _ => 403
  | .attributeErrorExc _ => 404
  | .typeErrorExc _ => 400
  | .unicodeDecodeErrorExc _ => 400
  | _ => 500

/-- Body dict written by the `except` ladder of `_serve_http` (serialized
with `to_json` on the wire; the 404 body is the `_HTTP_NOT_FOUND` literal). -/
def serve_http_exc_body (trace : List Nat) : PyExc → List (List Nat × PyVal)
  | .redirectExc t => [(kRedirect, .pstr t)]
  | .needInfoExc m res vars =>
    [(kError, .pstr m), (kResource, res), (kNeededVars, .plist vars)]
  | .permissionErrorExc m => [(kError, .pstr m)]
  | .attributeErrorExc _ => [(kError, .pstr (strCps "Not Found"))]
  | .typeErrorExc m => [(kError, .pstr m)]
  | .unicodeDecodeErrorExc m => [(kError, .pstr m)]
  | e => [(kError, .pstr (excMsg e)), (kTraceback, .pstr trace)]

/-- The `try/except` tail of `_handle_http_request` around the awaited api
method: Redirect, NeedInfo and PermissionError re-raise; every other
exception becomes a 500 whose body carries the error string, plus the
traceback exactly when the request is authed. -/
def handle_api_exception (authed : Bool) (trace : List Nat) (e : PyExc) :
    Except PyExc (Int × List (List Nat × PyVal)) :=
  match e with
  | .redirectExc t => .error (.redirectExc t)
  | .needInfoExc m r v => .error (.needInfoExc m r v)
  | .permissionErrorExc m => .error (.permissionErrorExc m)
  | e =>
    .ok (500,
      if authed then [(kError, .pstr (excMsg e)), (kTraceback, .pstr trace)]
      else [(kError, .pstr (excMsg e))])

/-- Substring test, Python's `needle in hay` on strings. -/
def strContains (hay needle : List Nat) : Bool :=
  if needle.isPrefixOf hay then true
  else
    match hay with
    | [] => false
    | _ :: t => strContains t needle

/-- The first line of a request head (up to the first CR or LF). -/
def headFirstLine (s : List Nat) : List Nat :=
  s.takeWhile (fun c => c ≠ 10 ∧ c ≠ 13)

/-- Model of `RPCKitten.validate_request_header`: raise `PermissionError`
when the secret occurs nowhere in the head; strip the leading `/<secret>`
when `path + '/'` starts with `/<secret>/`; otherwise return the path
unchanged. -/
def validate_request_header (secret path header : List Nat) :
    Except PyExc (List Nat) :=
  if !strContains header secret then .error (.permissionErrorExc [])
  else if (47 :: secret ++ [47]).isPrefixOf (path ++ [47]) then
    .ok (path.drop (secret.length + 1))
  else .ok path

/-- The authed tag and dispatched path assigned by `_serve_http`: a passed
check tags the request authed with the stripped path, a `PermissionError`
tags it not authed and keeps the path. -/
def serveAuthTag (secret path header : List Nat) : Bool × List Nat :=
  match validate_request_header secret path header with
  | .ok p => (true, p)
  | .error _ => (false, path)

/-- The handler tables reachable through `getattr(self, <kind>_<name>)`:
one lookup function per name-mangling family. -/
structure ApiRegistry (α : Type) where
  rawM : List Nat → Option α
  apiM : List Nat → Option α
  publicRawM : List Nat → Option α
  publicApiM : List Nat → Option α

/-- Model of `RPCKitten.get_method_name`: first path component, or
`web_root` when the path is empty. -/
def get_method_name (path : List Nat) : List Nat :=
  let seg := (path.drop 1).takeWhile (· ≠ 47)
  if seg.isEmpty then strCps "web_root" else seg

/-- Model of `RPCKitten.get_api_methods` (with the default
`get_default_methods`, which raises `AttributeError` for authed requests and
`PermissionError` otherwise): returns the `(api_method, raw_method)` pair. -/
def get_api_methods {α : Type} (reg : ApiRegistry α) (authed : Bool)
    (name : List Nat) : Except PyExc (Option α × Option α) :=
  let p1 : Option α × Option α :=
    if authed then (reg.rawM name, reg.apiM name) else (none, none)
  let p2 : Option α × Option α :=
    if p1.1.isNone && p1.2.isNone then (reg.publicRawM name, reg.publicApiM name)
    else p1
  if p2.1.isNone && p2.2.isNone then
    .error (if authed then .attributeErrorExc name else .permissionErrorExc name)
  else .ok (p2.2, p2.1)

/-- How `_handle_http_request` runs the selected handler: a raw method as a
background task, an api method awaited in place, or an api method that is an
async generator function, wrapped by `_wrap_async_generator` and run like a
raw method. -/
inductive Dispatched (α : Type) where
  | rawH (h : α)
  | apiH (h : α)
  | wrappedH (h : α)

/-- The dispatch choice of `_handle_http_request` on the
`(api_method, raw_method)` pair, with `gen` modelling
`inspect.isasyncgenfunction`: first, an async-generator api method replaces
the raw method (wrapped); then a raw method, when present, runs as a
background task; otherwise the api method is awaited. -/
def pickHandler {α : Type} (gen : α → Bool) (p : Option α × Option α) :
    Option (Dispatched α) :=
  match p.1 with
  | some a =>
    if gen a then some (.wrappedH a)
    else
      match p.2 with
      | some r => some (.rawH r)
      | none => some (.apiH a)
  | none =>
    match p.2 with
    | some r => some (.rawH r)
    | none => none

/-- Handler resolution end to end: `get_api_methods` composed with the
dispatch choice of `_handle_http_request` (including the async-generator
override). -/
def resolve_method {α : Type} (gen : α → Bool) (reg : ApiRegistry α)
    (authed : Bool) (name : List Nat) : Except PyExc (Option (Dispatched α)) :=
  (get_api_methods reg authed name).map (pickHandler gen)

/-- The `_FD_BRE_MAGIC_` placeholder marker. -/
def MAGIC_FD : List Nat := strCps "_FD_BRE_MAGIC_"

/-- The `_SO_BRE_MAGIC_` placeholder marker. -/
def MAGIC_SOCK : List Nat := strCps "_SO_BRE_MAGIC_"

/-- Python's `s.split(sep)` (full split on a one-character separator). -/
def pySplitAll (sep : Nat) : List Nat → List (List Nat)
  | [] => [[]]
  | c :: r =>
    match pySplitAll sep r with
    | [] => [[]]
    | h :: t => if c = sep then [] :: h :: t else (c :: h) :: t

/-- A translated positional argument: unchanged value, or a socket / file
object wrapping one received descriptor. -/
inductive TransArg where
  | plain (v : PyVal)
  | sockObj (fd : Nat) (family typ proto : Int)
  | fileObj (fd : Nat) (mode : List Nat)

/-- Model of `RPCKitten._fd_from_magic_arg`: a str starting with the socket
marker parses `<family>-<type>-<proto>` and consumes the head descriptor; a
str starting with the file marker must split into exactly two parts and
consumes the head descriptor; everything else passes through. `none` models
a raised error (bad placeholder or exhausted descriptor list). -/
def fd_from_magic_arg (a : PyVal) (fds : List Nat) :
    Option (TransArg × List Nat) :=
  match a with
  | .pstr s =>
    if MAGIC_SOCK.isPrefixOf s then
      match (pySplitAll 45 s).tail with
      | [f, t, p] =>
        match pyIntParse 10 f, pyIntParse 10 t, pyIntParse 10 p with
        | some fv, some tv, some pv =>
          match fds with
          | fd :: rest => some (.sockObj fd fv tv pv, rest)
          | [] => none
        | _, _, _ => none
      | _ => none
    else if MAGIC_FD.isPrefixOf s then
      match pySplitAll 45 s with
      | [_, mode] =>
        match fds with
        | fd :: rest => some (.fileObj fd mode, rest)
        | [] => none
      | _ => none
    else some (.plain (.pstr s), fds)
  | v => some (.plain v, fds)

/-- The list comprehension of `_handle_http_request` that translates every
positional argument left to right, threading the shared descriptor list. -/
def translate_args : List PyVal → List Nat → Option (List TransArg × List Nat)
  | [], fds => some ([], fds)
  | a :: rest, fds =>
    match fd_from_magic_arg a fds with
    | some (t, fds2) =>
      match translate_args rest fds2 with
      | some (ts, fds3) => some (t :: ts, fds3)
      | none => none
    | none => none

/-- Is this argument a placeholder (a str bearing one of the magic
markers)? -/
def isMagicArg : PyVal → Bool
  | .pstr s => MAGIC_SOCK.isPrefixOf s || MAGIC_FD.isPrefixOf s
  | _ => false

/-- A placeholder whose parse part succeeds (well-formed marker payload);
non-placeholders are trivially ok. -/
def magicArgOk : PyVal → Bool
  | .pstr s =>
    if MAGIC_SOCK.isPrefixOf s then
      match (pySplitAll 45 s).tail with
      | [f, t, p] =>
        (pyIntParse 10 f).isSome && (pyIntParse 10 t).isSome && (pyIntParse 10 p).isSome
      | _ => false
    else if MAGIC_FD.isPrefixOf s then
      match pySplitAll 45 s with
      | [_, _] => true
      | _ => false
    else true
  | _ => true

/-- Number of placeholder arguments. -/
def countMagic (args : List PyVal) : Nat := (args.filter isMagicArg).length

/-- The descriptor carried by a translated argument, if any. -/
def transFd : TransArg → Option Nat
  | .plain _ => none
  | .sockObj fd _ _ _ => some fd
  | .fileObj fd _ => some fd

/-- A client-side argument as `call` sees it: a socket object, some other
object with a `fileno`, or a plain value. -/
inductive SendArg where
  | sockArg (family typ proto : Int)
  | fileLikeArg (mode : List Nat)
  | plainArg (v : PyVal)

/-- Model of `RPCKitten._fd_to_magic_arg`: sockets become
`_SO_BRE_MAGIC_-<family>-<type>-<proto>` with decimal integers, other
objects with a `fileno` become `_FD_BRE_MAGIC_-<mode>`, everything else is
returned unchanged. -/
def fd_to_magic_arg : SendArg → PyVal
  | .sockArg f t p =>
    .pstr (MAGIC_SOCK ++ [45] ++ intToDec f ++ [45] ++ intToDec t ++ [45] ++ intToDec p)
  | .fileLikeArg m => .pstr (MAGIC_FD ++ [45] ++ m)
  | .plainArg v => v

/-- First index at which `pat` occurs as a sublist, Python's `bytes.index`
and `str.split(sep, 1)` locator. -/
def findSub (pat : List Nat) : List Nat → Option Nat
  | [] => if pat.isEmpty then some 0 else none
  | s@(_ :: t) => if pat.isPrefixOf s then some 0 else (findSub pat t).map (· + 1)

/-- Line-break code points recognized by `str.splitlines`. -/
def isLineBreakCp (c : Nat) : Bool :=
  c = 10 || c = 13 || c = 11 || c = 12 || c = 28 || c = 29 || c = 30 ||
    c = 133 || c = 8232 || c = 8233

/-- Worker of `pySplitlines`, accumulating the current line reversed. -/
def pySplitlinesGo : List Nat → List Nat → List (List Nat)
  | cur, [] => if cur.isEmpty then [] else [cur.reverse]
  | cur, 13 :: 10 :: r => cur.reverse :: pySplitlinesGo [] r
  | cur, c :: r =>
    if isLineBreakCp c then cur.reverse :: pySplitlinesGo [] r
    else pySplitlinesGo (c :: cur) r

/-- Python's `str.splitlines` (no final empty line after a trailing
terminator). -/
def pySplitlines (s : List Nat) : List (List Nat) := pySplitlinesGo [] s

/-- The header-line parse of `_http11`: each line after the request line is
split once at `': '`; a line without the separator makes the surrounding
`dict(...)` raise `ValueError` (modelled as `none`). -/
def parseHeaderLines (lines : List (List Nat)) :
    Option (List (List Nat × List Nat)) :=
  lines.mapM fun l => (findSub (strCps ": ") l).map fun i => (l.take i, l.drop (i + 2))

/-- Lookup in the parsed header dict; later duplicates override earlier
ones, as `dict(...)` keeps the last value for a repeated key. -/
def dictLookupLast (kvs : List (List Nat × List Nat)) (k : List Nat) :
    Option (List Nat) :=
  match kvs with
  | [] => none
  | (k2, v) :: rest =>
    match dictLookupLast rest k with
    | some r => some r
    | none => if k2 = k then some v else none

/-- The `Content-Length` header name. -/
def CONTENT_LENGTH : List Nat := strCps "Content-Length"

/-- The header block found by `_http11`: the decoded head string, the parsed
header mapping and the index `hend` of the head terminator. -/
structure Http11Found where
  header : List Nat
  headers : List (List Nat × List Nat)
  hend : Nat

/-- The `try` block of `_http11` that hunts for a complete header block in
the accumulated request bytes: find the first LF, pick CRLF or LF line
endings by the preceding byte (`request[nl1-1]`, which for an LF at index 0
is Python's wrap-around last byte), find the doubled ending, and decode the
head as UTF-8. All failures (including `UnicodeDecodeError`, a `ValueError`
subclass) are swallowed by the `except ValueError: pass`. Returns the
decoded head, `hend` and the terminator length. -/
def http11TryFind (request : List Nat) : Option (List Nat × Nat × Nat) :=
  match request.findIdx? (· = 10) with
  | none => none
  | some nl1 =>
    let prevIs13 : Bool :=
      if nl1 = 0 then request.getLast? = some 13 else request[nl1 - 1]? = some 13
    let eom : List Nat := if prevIs13 then [13, 10, 13, 10] else [10, 10]
    match findSub eom request with
    | none => none
    | some hend =>
      match utf8Decode (request.take hend) with
      | none => none
      | some hdr => some (hdr, hend, eom.length)

/-- The code after the read loop of `_http11`: no header block means
`ValueError('Header not found in HTTP data')`; a nonzero byte debt means
`IOError('HTTP data incomplete, ...')`; otherwise the parsed head plus the
body slice `request[hend+2:]`. -/
def http11Finish (request : List Nat) (found : Option Http11Found)
    (wantBytes : Int) : Except PyExc (Http11Found × List Nat) :=
  match found with
  | none => .error (.valueErrorExc (strCps "Header not found in HTTP data"))
  | some f =>
    if wantBytes ≠ 0 then
      .error (.ioErrorExc (strCps "HTTP data incomplete"))
    else .ok (f, request.drop (f.hend + 2))

/-- The read loop of `_http11` over the successive results of
`_recv_data_and_fds` (an empty read is EOF): accumulate bytes, fail with
`ValueError('Request too large')` past `worker_http_request_max_size`, parse
the header block once it is complete, and recompute the outstanding byte
debt from `Content-Length`. -/
def http11Loop (maxSize : Nat) :
    List (List Nat) → List Nat → Option Http11Found → Int →
    Except PyExc (Http11Found × List Nat)
  | reads, request, found, wantBytes =>
    if wantBytes ≤ 0 then http11Finish request found wantBytes
    else
      match reads with
      | [] => http11Finish request found wantBytes
      | r :: rs =>
        if r.isEmpty then http11Finish request found wantBytes
        else
          let wb : Int := wantBytes - r.length
          let request2 := request ++ r
          if request2.length > maxSize then
            .error (.valueErrorExc (strCps "Request too large"))
          else
            match found with
            | some f => http11Loop maxSize rs request2 (some f) wb
            | none =>
              match http11TryFind request2 with
              | none => http11Loop maxSize rs request2 none wb
              | some (hdr, hend, eomLen) =>
                match parseHeaderLines (pySplitlines hdr).tail with
                | none =>
                  .error (.valueErrorExc (strCps "dictionary update sequence"))
                | some headers =>
                  let f : Http11Found := ⟨hdr, headers, hend⟩
                  match dictLookupLast headers CONTENT_LENGTH with
                  | none => http11Loop maxSize rs request2 (some f) 0
                  | some cs =>
                    match pyIntParse 10 cs with
                    | none => .error (.valueErrorExc cs)
                    | some clen =>
                      let wb2 : Int :=
                        if clen ≠ 0 then
                          ((hend : Int) + eomLen + clen - request2.length)
                        else 0
                      http11Loop maxSize rs request2 (some f) wb2

/-- Model of `RPCKitten._http11` over the list of socket reads (descriptor
collection, which does not affect parsing, is omitted): starts wanting 8192
bytes of header. -/
def http11 (maxSize : Nat) (reads : List (List Nat)) :
    Except PyExc (Http11Found × List Nat) :=
  http11Loop maxSize reads [] none 8192

/-- The default `WORKER_HTTP_REQUEST_MAX_SIZE` (1 MiB). -/
def WORKER_HTTP_REQUEST_MAX_SIZE : Nat := 1024 * 1024

/-- One item produced by a streaming handler: an `HttpResult` (carrying its
`mimetype`/`data` entries) or a plain value. -/
inductive GenItem where
  | httpRes (mimetype : Option (List Nat)) (data : PyVal)
  | plainItem (v : PyVal)

/-- How the handler's iteration ends: normal exhaustion, a broken pipe
(`IOError`/`BrokenPipeError`), a `NeedInfoException`, or any other
exception (with its optional `http_code` attribute). -/
inductive GenEnd where
  | normal
  | raiseBrokenPipe (msg : List Nat)
  | raiseNeedInfo (msg : List Nat) (resource : PyVal) (neededVars : List PyVal)
  | raiseOther (msg : List Nat) (httpCode : Option Int)

/-- One write performed by the generator wrapper: the chunked 200 response
head, one chunk (`_send_chunked`), or a plain error response
(status line, `Content-Type`, body). -/
inductive WEvent where
  | chunkedHead (mt : List Nat)
  | chunkW (payload : List Nat)
  | errorResp (code : Int) (mt : List Nat) (body : List Nat)

/-- The encoder in effect inside the wrapper: the request encoder, the
identity pass-through after a mime switch, or the SSE formatter. -/
inductive EncState where
  | reqEnc
  | passThrough
  | sseEnc

/-- Apply the wrapper's current encoder and the byte conversion of
`RequestInfo.write` (str payloads are UTF-8 encoded; a payload `write`
would reject is modelled as empty, no claim exercises it). -/
def applyEnc (enc0 sse : PyVal → List Nat) : EncState → PyVal → List Nat
  | .reqEnc, v => enc0 v
  | .sseEnc, v => sse v
  | .passThrough, v =>
    match v with
    | .pbytes b => b
    | .pstr s => (utf8Encode s).getD []
    | _ => []

/-- The `text/event-stream` mime type. -/
def SSE_MIMETYPE : List Nat := strCps "text/event-stream"

/-- Status codes with a line in `_HTTP_RESPONSE`. -/
def HTTP_RESPONSE_CODES : List Int := [200, 302, 400, 401, 403, 404, 423, 500]

/-- Dict key `finished` of the magic error-replay item. -/
def kFinished : List Nat := strCps "finished"

/-- Dict key `event` of an SSE error event. -/
def kEvent : List Nat := strCps "event"

/-- Dict key `data` of an SSE error event. -/
def kData : List Nat := strCps "data"

/-- Lookup in a `PyVal` dict. -/
def lookupKVs (kvs : List (List Nat × PyVal)) (k : List Nat) : Option PyVal :=
  match kvs with
  | [] => none
  | (k2, v) :: rest => if k2 = k then some v else lookupKVs rest k

/-- Python `str()` of the values that reach error messages here (container
reprs are not needed by any claim and render as empty). -/
def pyValStr : PyVal → List Nat
  | .pstr s => s
  | .pint n => intToDec n
  | .pbool b => if b then strCps "True" else strCps "False"
  | .pnone => strCps "None"
  | _ => []

/-- `int(x)` coercion used for `e.http_code`. -/
def pyValInt : PyVal → Option Int
  | .pint n => some n
  | .pbool b => some (if b then 1 else 0)
  | .pstr s => pyIntParse 10 s
  | _ => none

/-- The error payload dict built by the `except Exception` arm of the
wrapper: `error`, plus `needed_vars`/`resource` for a NeedInfo, else
`traceback` exactly when the request is authed. -/
def wrapGenErrData (authed : Bool) (trace : List Nat) (e : GenEnd) : PyVal :=
  match e with
  | .raiseNeedInfo m res vars =>
    .pdict [(kError, .pstr m), (kNeededVars, .plist vars), (kResource, res)]
  | .raiseOther m _ =>
    if authed then .pdict [(kError, .pstr m), (kTraceback, .pstr trace)]
    else .pdict [(kError, .pstr m)]
  | .raiseBrokenPipe m =>
    if authed then .pdict [(kError, .pstr m), (kTraceback, .pstr trace)]
    else .pdict [(kError, .pstr m)]
  | .normal => .pdict [(kError, .pstr [])]

/-- Writes of the wrapper's exception arm: with nothing sent yet, a plain
error response using the exception's `http_code` when `_HTTP_RESPONSE` has
it (else 500); after the first chunk, a final error chunk and deliberately
no end-of-stream terminator. -/
def wrapGenExcEvents (authed : Bool) (trace : List Nat)
    (enc0 sse : PyVal → List Nat) (encSt : EncState) (mt : List Nat)
    (first : Bool) (e : GenEnd) : List WEvent :=
  let data0 := wrapGenErrData authed trace e
  let data : PyVal :=
    match encSt with
    | .sseEnc => .pdict [(kEvent, .pstr (strCps "error")), (kData, data0)]
    | _ => data0
  let code : Int :=
    match e with
    | .raiseNeedInfo _ _ _ => 423
    | .raiseOther _ (some c) => if c ∈ HTTP_RESPONSE_CODES then c else 500
    | _ => 500
  if first then [.errorResp code mt (applyEnc enc0 sse encSt data)]
  else [.chunkW (applyEnc enc0 sse encSt data)]

/-- The per-item body of the wrapper loop plus its terminating actions.
Mirrors `raw_method` inside `_wrap_async_generator`: a later `HttpResult`
raises; a `(None, None)` item silently ends the generator with no
terminator; a truthy mime type on the first item switches the encoder; a
first-item dict bearing `finished` and `error` keys replays a remote error
(modelled coarsely through `raiseOther`/`raiseNeedInfo`, no claim touches
it); otherwise the head is written once and each item is sent as one chunk;
normal exhaustion appends the zero-length chunk; a broken pipe stops
writing; other exceptions go through `wrapGenExcEvents`. -/
def wrapGenGo (authed : Bool) (trace : List Nat) (enc0 sse : PyVal → List Nat) :
    List GenItem → GenEnd → EncState → List Nat → Bool → Bool → List WEvent
  | [], theEnd, encSt, mt, first, _sent =>
    match theEnd with
    | .normal => [.chunkW []]
    | .raiseBrokenPipe _ => []
    | e => wrapGenExcEvents authed trace enc0 sse encSt mt first e
  | r :: rest, theEnd, encSt, mt, first, sent =>
    match r, first with
    | .httpRes _ _, false =>
      wrapGenExcEvents authed trace enc0 sse encSt mt false
        (.raiseOther (strCps "HttpResult must be first emitted result") none)
    | r, first =>
      let mr : Option (List Nat) × PyVal :=
        match r with
        | .httpRes m d => (m, d)
        | .plainItem v => (none, v)
      match mr with
      | (none, .pnone) => []
      | (mimetype, resp) =>
        let mtTruthy : Bool :=
          match mimetype with
          | some m => !m.isEmpty
          | none => false
        let switched : EncState × List Nat :=
          match mimetype with
          | some m =>
            if first && !m.isEmpty then
              (if m = SSE_MIMETYPE then (.sseEnc, m) else (.passThrough, m))
            else (encSt, mt)
          | none => (encSt, mt)
        let magicEnd : Option GenEnd :=
          if first && !mtTruthy then
            match resp with
            | .pdict kvs =>
              match lookupKVs kvs kFinished, lookupKVs kvs kError with
              | some fin, some errv =>
                some (match lookupKVs kvs kNeededVars, lookupKVs kvs kResource with
                  | some nv, some res =>
                    .raiseNeedInfo (pyValStr errv)
                      res
                      (match nv with | .plist l => l | v => [v])
                  | _, _ => .raiseOther (pyValStr errv) (pyValInt fin))
              | _, _ => none
            | _ => none
          else none
        match magicEnd with
        | some e => wrapGenExcEvents authed trace enc0 sse switched.1 switched.2 first e
        | none =>
          let headEvents : List WEvent :=
            if first && !sent then [.chunkedHead switched.2] else []
          headEvents ++ [.chunkW (applyEnc enc0 sse switched.1 resp)] ++
            wrapGenGo authed trace enc0 sse rest theEnd switched.1 switched.2 false sent

/-- Model of the `raw_method` produced by `RPCKitten._wrap_async_generator`,
over the handler's emitted items and its end event; `sent0` is true when a
reply redirection already seeded `request_obj.sent`. -/
def wrap_async_generator (authed : Bool) (trace : List Nat)
    (enc0 sse : PyVal → List Nat) (mt0 : List Nat) (sent0 : Bool)
    (items : List GenItem) (theEnd : GenEnd) : List WEvent :=
  wrapGenGo authed trace enc0 sse items theEnd .reqEnc mt0 true sent0

/-- An ordinary streamed item: a plain value, not `None`, not an
`HttpResult`, and not the magic error-replay dict. -/
def ordinaryItem : GenItem → Bool
  | .plainItem v =>
    match v with
    | .pnone => false
    | .pdict kvs => !((lookupKVs kvs kFinished).isSome && (lookupKVs kvs kError).isSome)
    | _ => true
  | .httpRes _ _ => false

/-- The plain values of a streamed item list. -/
def plainVals : List GenItem → List PyVal
  | [] => []
  | .plainItem v :: r => v :: plainVals r
  | .httpRes _ _ :: r => plainVals r

theorem dropWhile_eq_self_of_all {p : Nat → Bool} :
    ∀ s : List Nat, (∀ c ∈ s, p c = false) → s.dropWhile p = s := by
  intro s h
  cases s with
  | nil => rfl
  | cons c t =>
    have hc := h c (by simp)
    simp [List.dropWhile, hc]

theorem stripWs_eq_self (s : List Nat) (h : ∀ c ∈ s, isPyWs c = false) :
    stripWs s = s := by
  unfold stripWs
  rw [dropWhile_eq_self_of_all s h]
  rw [dropWhile_eq_self_of_all s.reverse (fun c hc => h c (List.mem_reverse.mp hc))]
  simp

theorem natToHex_chars : ∀ n, ∀ c ∈ natToHex n,
    (48 ≤ c ∧ c ≤ 57) ∨ (97 ≤ c ∧ c ≤ 102) := by
  intro n
  induction n using natToHex.induct with
  | case1 n hlt =>
    intro c hc
    rw [natToHex, dif_pos hlt] at hc
    simp at hc
    subst hc
    unfold hexChar
    split <;> omega
  | case2 n hlt ih =>
    intro c hc
    rw [natToHex, dif_neg hlt] at hc
    rcases List.mem_append.mp hc with h1 | h2
    · exact ih c h1
    · simp at h2
      subst h2
      unfold hexChar
      split <;> omega

theorem natToHex_ne_nil (n : Nat) : natToHex n ≠ [] := by
  induction n using natToHex.induct with
  | case1 n hlt => rw [natToHex, dif_pos hlt]; simp
  | case2 n hlt ih => rw [natToHex, dif_neg hlt]; simp

theorem digitVal_hexChar : ∀ d, d < 16 → digitVal 16 (hexChar d) = some d := by
  decide

theorem natToHex_foldl : ∀ n acc,
    (natToHex n).foldl (fun a c => a * 16 + ((digitVal 16 c).getD 0)) acc =
      acc * 16 ^ (natToHex n).length + n := by
  intro n
  induction n using natToHex.induct with
  | case1 n hlt =>
    intro acc
    rw [natToHex, dif_pos hlt]
    simp [digitVal_hexChar n hlt]
  | case2 n hlt ih =>
    intro acc
    rw [natToHex, dif_neg hlt]
    rw [List.foldl_append]
    rw [ih acc]
    simp [digitVal_hexChar (n % 16) (Nat.mod_lt n (by omega))]
    rw [pow_succ, Nat.add_mul, Nat.add_assoc, Nat.mul_assoc]
    congr 1
    omega

theorem parseDigits_run : ∀ ds acc, (∀ c ∈ ds, (digitVal 16 c).isSome) →
    parseDigits 16 ds true true acc =
      some (ds.foldl (fun a c => a * 16 + ((digitVal 16 c).getD 0)) acc) := by
  intro ds
  induction ds with
  | nil => intro acc _; simp [parseDigits]
  | cons c t ih =>
    intro acc hall
    have hc := hall c (by simp)
    have hc95 : c ≠ 95 := by
      intro hh
      subst hh
      simp [digitVal, digitValAny] at hc
    rcases hv : digitVal 16 c with _ | v
    · rw [hv] at hc; simp at hc
    · rw [parseDigits, if_neg hc95, hv]
      dsimp only
      rw [ih (acc * 16 + v) (fun x hx => hall x (by simp [hx]))]
      simp [hv]

theorem parseDigits_start : ∀ ds acc u, ds ≠ [] →
    (∀ c ∈ ds, (digitVal 16 c).isSome) →
    parseDigits 16 ds u false acc =
      some (ds.foldl (fun a c => a * 16 + ((digitVal 16 c).getD 0)) acc) := by
  intro ds acc u hne hall
  cases ds with
  | nil => exact absurd rfl hne
  | cons c t =>
    have hc := hall c (by simp)
    have hc95 : c ≠ 95 := by
      intro hh
      subst hh
      simp [digitVal, digitValAny] at hc
    rcases hv : digitVal 16 c with _ | v
    · rw [hv] at hc; simp at hc
    · rw [parseDigits, if_neg hc95, hv]
      dsimp only
      rw [parseDigits_run t (acc * 16 + v) (fun x hx => hall x (by simp [hx]))]
      simp [hv]

theorem dropBaseMarker_id (s : List Nat)
    (h : ∀ c ∈ s, (48 ≤ c ∧ c ≤ 57) ∨ (97 ≤ c ∧ c ≤ 102)) :
    dropBaseMarker 16 s = (false, s) := by
  unfold dropBaseMarker
  split
  · rename_i c rest
    have hy := h c (by simp)
    have h1 : ¬ ((16 : Nat) = 16 ∧ (c = 120 ∨ c = 88)) := by omega
    have h2 : ¬ ((16 : Nat) = 8 ∧ (c = 111 ∨ c = 79)) := by omega
    have h3 : ¬ ((16 : Nat) = 2 ∧ (c = 98 ∨ c = 66)) := by omega
    rw [if_neg h1, if_neg h2, if_neg h3]
  · rfl

theorem digitVal16_isSome_of_hex (x : Nat)
    (h : (48 ≤ x ∧ x ≤ 57) ∨ (97 ≤ x ∧ x ≤ 102)) :
    (digitVal 16 x).isSome = true := by
  unfold digitVal digitValAny
  rcases h with h | h
  · rw [if_pos (by omega)]
    simp
    omega
  · rw [if_neg (by omega), if_pos (by omega)]
    simp
    omega

theorem pyIntParse_natToHex (n : Nat) : pyIntParse 16 (natToHex n) = some (n : Int) := by
  have hchars := natToHex_chars n
  have hws : ∀ c ∈ natToHex n, isPyWs c = false := by
    intro c hc
    rcases hchars c hc with h | h <;> simp [isPyWs] <;> omega
  simp only [pyIntParse]
  rw [stripWs_eq_self _ hws]
  split
  · rename_i heq
    exact absurd heq (natToHex_ne_nil n)
  · rename_i c rest heq
    have hc := hchars c (by rw [heq]; simp)
    have hc45 : c ≠ 45 := by omega
    have hc43 : c ≠ 43 := by omega
    rw [if_neg hc45, if_neg hc43]
    dsimp only
    rw [dropBaseMarker_id (natToHex n) hchars]
    rw [parseDigits_start (natToHex n) 0 false (natToHex_ne_nil n)
      (fun x hx => digitVal16_isSome_of_hex x (hchars x hx))]
    rw [natToHex_foldl n 0]
    simp

theorem containsCRLF_of_no13 (s : List Nat) (h : ∀ c ∈ s, c ≠ 13) :
    containsCRLF s = false := by
  induction s with
  | nil => rfl
  | cons c t ih =>
    have hc := h c (by simp)
    simp [containsCRLF, hc, ih (fun x hx => h x (by simp [hx]))]

theorem splitCRLF_append (a b : List Nat) (h : containsCRLF a = false) :
    splitCRLF (a ++ 13 :: 10 :: b) = some (a, b) := by
  induction a with
  | nil => simp [splitCRLF]
  | cons c t ih =>
    simp only [containsCRLF, Bool.or_eq_false_iff, Bool.and_eq_false_iff] at h
    have h1 : ¬(c = 13 ∧ (t ++ 13 :: 10 :: b).head? = some 10) := by
      rcases t with _ | ⟨x, t2⟩
      · simp
      · intro hcc
        rcases hcc with ⟨hc13, hx⟩
        simp at hx
        rcases h.1 with hh | hh
        · simp [hc13] at hh
        · simp [hx] at hh
    have ih2 := ih h.2
    show splitCRLF (c :: (t ++ 13 :: 10 :: b)) = some (c :: t, b)
    rw [splitCRLF, if_neg h1, ih2]
    rfl

theorem splitCRLF_of_not_contains (s : List Nat) (h : containsCRLF s = false) :
    splitCRLF s = none := by
  induction s with
  | nil => rfl
  | cons c t ih =>
    simp only [containsCRLF, Bool.or_eq_false_iff, Bool.and_eq_false_iff] at h
    have h1 : ¬(c = 13 ∧ t.head? = some 10) := by
      intro hcc
      rcases h.1 with hh | hh
      · simp [hcc.1] at hh
      · simp [hcc.2] at hh
    rw [splitCRLF, if_neg h1, ih h.2]
    rfl

theorem natToHex_no13 (n : Nat) : ∀ c ∈ natToHex n, c ≠ 13 := by
  intro c hc
  rcases natToHex_chars n c hc with h | h <;> omega

theorem http11Chunk_chunk (d rest : List Nat) :
    http11Chunk (sendChunked d ++ rest) = (some d, rest) := by
  have hnc := containsCRLF_of_no13 _ (natToHex_no13 d.length)
  have hshape : sendChunked d ++ rest =
      natToHex d.length ++ 13 :: 10 :: (d ++ 13 :: 10 :: rest) := by
    simp [sendChunked]
  rw [hshape]
  unfold http11Chunk
  rw [splitCRLF_append _ _ hnc]
  dsimp only
  rw [pyIntParse_natToHex]
  dsimp only
  have hlen : ((d ++ 13 :: 10 :: rest).length : Int) ≥ (d.length : Int) + 2 := by
    simp
    omega
  rw [if_pos hlen]
  have hto : pySliceTo (d ++ 13 :: 10 :: rest) (d.length : Int) = d := by
    unfold pySliceTo
    rw [if_pos (by omega)]
    have : ((d.length : Int)).toNat = d.length := by omega
    rw [this]
    exact List.take_left d _
  have hfrom : pySliceFrom (d ++ 13 :: 10 :: rest) ((d.length : Int) + 2) = rest := by
    unfold pySliceFrom
    rw [if_pos (by omega)]
    have h2 : ((d.length : Int) + 2).toNat = (d ++ [13, 10]).length := by
      simp
      omega
    rw [h2]
    have h3 : d ++ 13 :: 10 :: rest = (d ++ [13, 10]) ++ rest := by simp
    rw [h3]
    exact List.drop_left _ rest
  rw [hto, hfrom]

theorem drainChunks_eq_cut (buffer c rest : List Nat)
    (h : http11Chunk buffer = (some c, rest)) :
    drainChunks buffer = (c :: (drainChunks rest).1, (drainChunks rest).2) := by
  rw [drainChunks]
  split
  · rename_i c2 rest2 h2
    rw [h] at h2
    injection h2 with ha hb
    injection ha with ha
    subst ha
    subst hb
    rfl
  · rename_i x h2
    rw [h] at h2
    simp at h2

theorem drainChunks_eq_stop (buffer x : List Nat)
    (h : http11Chunk buffer = (none, x)) :
    drainChunks buffer = ([], buffer) := by
  rw [drainChunks]
  split
  · rename_i c2 rest2 h2
    rw [h] at h2
    simp at h2
  · rfl

theorem http11Chunk_nil : http11Chunk [] = (none, []) := rfl

theorem drainChunks_nil : drainChunks [] = ([], []) :=
  drainChunks_eq_stop [] [] http11Chunk_nil

theorem drainChunks_stream : ∀ (cs : List (List Nat)) (tail : List Nat),
    drainChunks ((cs.map sendChunked).flatten ++ tail) =
      (cs ++ (drainChunks tail).1, (drainChunks tail).2) := by
  intro cs
  induction cs with
  | nil => intro tail; simp
  | cons c cs2 ih =>
    intro tail
    have hshape : ((c :: cs2).map sendChunked).flatten ++ tail =
        sendChunked c ++ ((cs2.map sendChunked).flatten ++ tail) := by
      simp
    rw [hshape]
    rw [drainChunks_eq_cut _ c ((cs2.map sendChunked).flatten ++ tail)
      (http11Chunk_chunk c _)]
    rw [ih tail]
    simp

theorem chunkLoopReads_nil_reads (decode : List Nat → PyVal)
    (buffer : List Nat) (fin : Bool) :
    chunkLoopReads decode buffer [] fin =
      (((drainChunks buffer).1.filter (fun c => !c.isEmpty)).map decode,
        finishedAfter fin (drainChunks buffer).1) := by
  rw [chunkLoopReads]

theorem filter_nonEmpty_of_all {cs : List (List Nat)} (h : ∀ c ∈ cs, c ≠ []) :
    cs.filter (fun c => !c.isEmpty) = cs := by
  rw [List.filter_eq_self]
  intro a ha
  simp [h a ha]

theorem finishedAfter_concat (fin : Bool) (cs : List (List Nat)) :
    finishedAfter fin (cs ++ [[]]) = true := by
  unfold finishedAfter
  rw [List.getLast?_concat]
  rfl

theorem finishedAfter_all_ne (cs : List (List Nat)) (h : ∀ c ∈ cs, c ≠ []) :
    finishedAfter false cs = false := by
  unfold finishedAfter
  rcases hl : cs.getLast? with _ | last
  · rfl
  · have hm : last ∈ cs := List.mem_of_mem_getLast? hl
    simp [h last hm]

theorem chunk_decoder_terminated (decode : List Nat → PyVal)
    (cs : List (List Nat)) (h : ∀ c ∈ cs, c ≠ []) :
    chunk_decoder decode [] ((cs.map sendChunked).flatten ++ sendChunked []) [] =
      (cs.map decode, true) := by
  unfold chunk_decoder
  have hterm : drainChunks (sendChunked []) = ([[]], []) := by
    have h0 : sendChunked [] ++ ([] : List Nat) = sendChunked [] := by simp
    have := drainChunks_eq_cut (sendChunked []) [] []
      (by rw [← h0] at *; exact http11Chunk_chunk [] [])
    rw [this, drainChunks_nil]
  rw [chunkLoopReads_nil_reads, drainChunks_stream cs (sendChunked []), hterm]
  simp only [List.filter_append]
  rw [filter_nonEmpty_of_all h]
  rw [finishedAfter_concat]
  simp

theorem chunk_decoder_unterminated (decode : List Nat → PyVal)
    (cs : List (List Nat)) (h : ∀ c ∈ cs, c ≠ []) :
    chunk_decoder decode [] ((cs.map sendChunked).flatten) [] =
      (cs.map decode, false) := by
  unfold chunk_decoder
  have hshape : (cs.map sendChunked).flatten = (cs.map sendChunked).flatten ++ [] := by
    simp
  rw [chunkLoopReads_nil_reads, hshape, drainChunks_stream cs [], drainChunks_nil]
  simp only [List.append_nil]
  rw [filter_nonEmpty_of_all h]
  rw [finishedAfter_all_ne cs h]
  simp

theorem wrapGenGo_step (authed : Bool) (trace : List Nat)
    (enc0 sse : PyVal → List Nat) (v : PyVal) (rest : List GenItem)
    (theEnd : GenEnd) (mt : List Nat) (first : Bool)
    (hv : ordinaryItem (.plainItem v) = true) :
    wrapGenGo authed trace enc0 sse (.plainItem v :: rest) theEnd .reqEnc mt first false =
      (if first then [WEvent.chunkedHead mt] else []) ++
        WEvent.chunkW (enc0 v) ::
          wrapGenGo authed trace enc0 sse rest theEnd .reqEnc mt false false := by
  rw [wrapGenGo]
  cases v with
  | pnone => simp [ordinaryItem] at hv
  | pbool b => cases first <;> simp [applyEnc]
  | pint n => cases first <;> simp [applyEnc]
  | pstr s => cases first <;> simp [applyEnc]
  | pbytes b => cases first <;> simp [applyEnc]
  | plist xs => cases first <;> simp [applyEnc]
  | pdict kvs =>
    simp only [ordinaryItem, Bool.not_eq_true', Bool.and_eq_false_iff] at hv
    cases first
    · simp [applyEnc]
    · rcases hf : lookupKVs kvs kFinished with _ | fv
      · simp [applyEnc, hf]
      · rcases he : lookupKVs kvs kError with _ | ev
        · simp [applyEnc, hf, he]
        · rw [hf] at hv
          rw [he] at hv
          simp at hv

theorem wrapGenGo_notFirst (authed : Bool) (trace : List Nat)
    (enc0 sse : PyVal → List Nat) :
    ∀ (items : List GenItem) (theEnd : GenEnd) (mt : List Nat),
    (∀ i ∈ items, ordinaryItem i = true) →
    wrapGenGo authed trace enc0 sse items theEnd .reqEnc mt false false =
      ((plainVals items).map (fun v => WEvent.chunkW (enc0 v))) ++
        wrapGenGo authed trace enc0 sse [] theEnd .reqEnc mt false false := by
  intro items
  induction items with
  | nil => intro theEnd mt _; simp [plainVals]
  | cons i rest ih =>
    intro theEnd mt hall
    have hi := hall i (by simp)
    cases i with
    | httpRes m d => simp [ordinaryItem] at hi
    | plainItem v =>
      rw [wrapGenGo_step authed trace enc0 sse v rest theEnd mt false hi]
      rw [ih theEnd mt (fun x hx => hall x (by simp [hx]))]
      simp [plainVals]

theorem wrapGenGo_nil_normal (authed : Bool) (trace : List Nat)
    (enc0 sse : PyVal → List Nat) (st : EncState) (mt : List Nat)
    (first sent : Bool) :
    wrapGenGo authed trace enc0 sse [] .normal st mt first sent = [.chunkW []] := by
  rw [wrapGenGo]

theorem wrapGenGo_nil_broken (authed : Bool) (trace : List Nat)
    (enc0 sse : PyVal → List Nat) (st : EncState) (mt m : List Nat)
    (first sent : Bool) :
    wrapGenGo authed trace enc0 sse [] (.raiseBrokenPipe m) st mt first sent = [] := by
  rw [wrapGenGo]

theorem wrapGenGo_nil_needInfo (authed : Bool) (trace : List Nat)
    (enc0 sse : PyVal → List Nat) (mt m : List Nat) (res : PyVal)
    (vars : List PyVal) (first sent : Bool) :
    wrapGenGo authed trace enc0 sse [] (.raiseNeedInfo m res vars) .reqEnc mt first sent =
      (if first then
        [.errorResp 423 mt (enc0 (wrapGenErrData authed trace (.raiseNeedInfo m res vars)))]
      else
        [.chunkW (enc0 (wrapGenErrData authed trace (.raiseNeedInfo m res vars)))]) := by
  rw [wrapGenGo]
  · cases first <;> simp [wrapGenExcEvents, applyEnc]
  · intro h; exact GenEnd.noConfusion h
  · intro msg h; exact GenEnd.noConfusion h

theorem wrapGenGo_nil_other (authed : Bool) (trace : List Nat)
    (enc0 sse : PyVal → List Nat) (mt m : List Nat) (hc : Option Int)
    (first sent : Bool) :
    wrapGenGo authed trace enc0 sse [] (.raiseOther m hc) .reqEnc mt first sent =
      (if first then
        [.errorResp
          (match hc with
            | some c => if c ∈ HTTP_RESPONSE_CODES then c else 500
            | none => 500)
          mt (enc0 (wrapGenErrData authed trace (.raiseOther m hc)))]
      else
        [.chunkW (enc0 (wrapGenErrData authed trace (.raiseOther m hc)))]) := by
  rw [wrapGenGo]
  · cases first <;> cases hc <;> simp [wrapGenExcEvents, applyEnc]
  · intro h; exact GenEnd.noConfusion h
  · intro msg h; exact GenEnd.noConfusion h

/-- C1: chunked-stream integrity. (i) When the wire stream is the encoding
of data chunks followed by the zero-length terminator chunk, the decoded
chunk generator of `_chunk_decoder` yields the decoded value of every data
chunk in order and finishes cleanly (flag `true`: no `IncompleteStream`).
(ii) Without the terminator it yields the same values but ends unfinished
(flag `false`), which makes the generator raise the `IOError` whose message
is (iii) `incompleteStreamMsg`. (iv) The server-side wrapper
`_wrap_async_generator`, on a stream of ordinary items that completes
normally, writes the chunked head, one chunk per item, and the zero-length
terminator chunk; and (v) it writes the zero-length chunk exactly when the
handler completed normally — any raise omits it. -/
theorem c1_chunked_stream_integrity :
    (∀ (decode : List Nat → PyVal) (cs : List (List Nat)), (∀ c ∈ cs, c ≠ []) →
      chunk_decoder decode [] ((cs.map sendChunked).flatten ++ sendChunked []) [] =
        (cs.map decode, true)) ∧
    (∀ (decode : List Nat → PyVal) (cs : List (List Nat)), (∀ c ∈ cs, c ≠ []) →
      chunk_decoder decode [] ((cs.map sendChunked).flatten) [] =
        (cs.map decode, false)) ∧
    incompleteStreamMsg = strCps "Incomplete result, missing end-of-stream marker" ∧
    (∀ (authed : Bool) (trace : List Nat) (enc0 sse : PyVal → List Nat)
        (mt : List Nat) (items : List GenItem),
      (∀ i ∈ items, ordinaryItem i = true) → items ≠ [] →
      wrap_async_generator authed trace enc0 sse mt false items .normal =
        .chunkedHead mt ::
          ((plainVals items).map (fun v => WEvent.chunkW (enc0 v)) ++ [.chunkW []])) ∧
    (∀ (authed : Bool) (trace : List Nat) (enc0 sse : PyVal → List Nat)
        (mt : List Nat) (items : List GenItem) (theEnd : GenEnd),
      (∀ i ∈ items, ordinaryItem i = true) → (∀ v, enc0 v ≠ []) →
      ((WEvent.chunkW [] ∈ wrap_async_generator authed trace enc0 sse mt false items theEnd)
        ↔ theEnd = .normal)) := by
  refine ⟨chunk_decoder_terminated, chunk_decoder_unterminated, rfl, ?_, ?_⟩
  · intro authed trace enc0 sse mt items hall hne
    cases items with
    | nil => exact absurd rfl hne
    | cons i rest =>
      have hi := hall i (by simp)
      cases i with
      | httpRes m d => simp [ordinaryItem] at hi
      | plainItem v =>
        unfold wrap_async_generator
        rw [wrapGenGo_step authed trace enc0 sse v rest .normal mt true hi]
        rw [wrapGenGo_notFirst authed trace enc0 sse rest .normal mt
          (fun x hx => hall x (by simp [hx]))]
        rw [wrapGenGo_nil_normal]
        simp [plainVals]
  · intro authed trace enc0 sse mt items theEnd hall henc
    cases items with
    | nil =>
      show WEvent.chunkW [] ∈ wrapGenGo authed trace enc0 sse [] theEnd .reqEnc mt true false
        ↔ theEnd = .normal
      cases theEnd with
      | normal => rw [wrapGenGo_nil_normal]; simp
      | raiseBrokenPipe m =>
        apply iff_of_false ?_ (by simp)
        rw [wrapGenGo_nil_broken]
        simp
      | raiseNeedInfo m res vars =>
        apply iff_of_false ?_ (by simp)
        rw [wrapGenGo_nil_needInfo]
        simp
      | raiseOther m hc =>
        apply iff_of_false ?_ (by simp)
        rw [wrapGenGo_nil_other]
        simp
    | cons i rest =>
      have hi := hall i (by simp)
      cases i with
      | httpRes m d => simp [ordinaryItem] at hi
      | plainItem v =>
        have hout : ∀ (e : GenEnd),
            wrap_async_generator authed trace enc0 sse mt false (.plainItem v :: rest) e =
              .chunkedHead mt ::
                ((plainVals (.plainItem v :: rest)).map (fun w => WEvent.chunkW (enc0 w)) ++
                  wrapGenGo authed trace enc0 sse [] e .reqEnc mt false false) := by
          intro e
          unfold wrap_async_generator
          rw [wrapGenGo_step authed trace enc0 sse v rest e mt true hi]
          rw [wrapGenGo_notFirst authed trace enc0 sse rest e mt
            (fun x hx => hall x (by simp [hx]))]
          simp [plainVals]
        rw [hout theEnd]
        have hmapmem : WEvent.chunkW [] ∉
            (plainVals (.plainItem v :: rest)).map (fun w => WEvent.chunkW (enc0 w)) := by
          intro hmem
          rcases List.mem_map.mp hmem with ⟨w, _, hw⟩
          injection hw with hw
          exact henc w hw
        cases theEnd with
        | normal =>
          rw [wrapGenGo_nil_normal]
          simp
        | raiseBrokenPipe m =>
          apply iff_of_false ?_ (by simp)
          rw [wrapGenGo_nil_broken]
          simp only [List.append_nil, List.mem_cons]
          intro hmem
          rcases hmem with hmem | hmem
          · exact WEvent.noConfusion hmem
          · exact hmapmem hmem
        | raiseNeedInfo m res vars =>
          apply iff_of_false ?_ (by simp)
          rw [wrapGenGo_nil_needInfo]
          simp only [if_neg (Bool.false_ne_true), List.mem_cons, List.mem_append,
            List.mem_singleton]
          intro hmem
          rcases hmem with hmem | hmem | hmem | hmem
          · exact WEvent.noConfusion hmem
          · exact hmapmem hmem
          · injection hmem with hmem
            exact henc _ hmem.symm
          · simp at hmem
        | raiseOther m hc =>
          apply iff_of_false ?_ (by simp)
          rw [wrapGenGo_nil_other]
          simp only [if_neg (Bool.false_ne_true), List.mem_cons, List.mem_append,
            List.mem_singleton]
          intro hmem
          rcases hmem with hmem | hmem | hmem | hmem
          · exact WEvent.noConfusion hmem
          · exact hmapmem hmem
          · injection hmem with hmem
            exact henc _ hmem.symm
          · simp at hmem

/-- Witness for C1 at concrete inputs: the stream of one data chunk `b"A"`
plus the terminator decodes to that one value and finishes cleanly, and the
wrapper of a normally completed one-item stream emits the terminator. -/
theorem c1_chunked_stream_integrity_witness :
    chunk_decoder PyVal.pbytes []
        ((([[65]] : List (List Nat)).map sendChunked).flatten ++ sendChunked []) [] =
      (([[65]] : List (List Nat)).map PyVal.pbytes, true) ∧
    (WEvent.chunkW [] ∈
      wrap_async_generator true [] (fun _ => [48]) (fun _ => [48]) []
        false [GenItem.plainItem (PyVal.pint 1)] .normal) := by
  refine ⟨?_, ?_⟩
  · exact c1_chunked_stream_integrity.1 PyVal.pbytes [[65]] (by simp)
  · exact (c1_chunked_stream_integrity.2.2.2.2 true [] (fun _ => [48]) (fun _ => [48]) []
      [GenItem.plainItem (PyVal.pint 1)] .normal
      (by intro i hi; simp at hi; subst hi; rfl)
      (by intro v; simp)).mpr rfl

/-- C9 counterexample: on the buffer `b"-1\x5cr\x5cnAB"` the length line
`-1` is not a hexadecimal digit string, yet `_http11_chunk` does not leave
the buffer untouched: Python's `int(b'-1', 16)` parses the sign, the
`len(data) >= ln+2` guard passes, and the negative slices cut the chunk
`b"A"` with remainder `b"B"`. -/
theorem c9_chunk_cut_counterexample :
    isHexDigitString (strCps "-1") = false ∧
    http11Chunk (strCps "-1" ++ [13, 10] ++ strCps "AB") =
      (some (strCps "A"), strCps "B") ∧
    ((some (strCps "A"), strCps "B") : Option (List Nat) × List Nat) ≠
      (none, strCps "-1" ++ [13, 10] ++ strCps "AB") := by
  refine ⟨by decide, by decide, by decide⟩

/-- C9 as amended: `_http11_chunk` returns a chunk only when the buffer
splits at a first CRLF into a line that `int(., 16)` parses (which also
admits signs, whitespace and a `0x` marker) followed by at least `ln+2`
bytes; for a nonnegative `ln` it then returns exactly the next `ln` bytes
and the remainder after `ln+2` bytes, and for a negative `ln` the Python
slices `data[:ln]` / `data[ln+2:]`; with no CRLF, an unparseable line, or
insufficient data it returns no chunk and the buffer unchanged. -/
theorem c9_chunk_cut_amended :
    (∀ buffer, containsCRLF buffer = false → http11Chunk buffer = (none, buffer)) ∧
    (∀ a b, containsCRLF a = false → pyIntParse 16 a = none →
      http11Chunk (a ++ 13 :: 10 :: b) = (none, a ++ 13 :: 10 :: b)) ∧
    (∀ a b (n : Int), containsCRLF a = false → pyIntParse 16 a = some n →
      (((b.length : Int) ≥ n + 2 →
        http11Chunk (a ++ 13 :: 10 :: b) = (some (pySliceTo b n), pySliceFrom b (n + 2))) ∧
       ((b.length : Int) < n + 2 →
        http11Chunk (a ++ 13 :: 10 :: b) = (none, a ++ 13 :: 10 :: b)))) ∧
    (∀ (b : List Nat) (n : Nat), pySliceTo b (n : Int) = b.take n ∧
      pySliceFrom b ((n : Int) + 2) = b.drop (n + 2)) := by
  refine ⟨?_, ?_, ?_, ?_⟩
  · intro buffer h
    unfold http11Chunk
    rw [splitCRLF_of_not_contains buffer h]
  · intro a b ha hp
    unfold http11Chunk
    rw [splitCRLF_append a b ha]
    dsimp only
    rw [hp]
  · intro a b n ha hp
    constructor
    · intro hlen
      unfold http11Chunk
      rw [splitCRLF_append a b ha]
      dsimp only
      rw [hp]
      dsimp only
      rw [if_pos hlen]
    · intro hlen
      unfold http11Chunk
      rw [splitCRLF_append a b ha]
      dsimp only
      rw [hp]
      dsimp only
      rw [if_neg (by omega)]
  · intro b n
    constructor
    · unfold pySliceTo
      rw [if_pos (by omega)]
      congr 1
    · unfold pySliceFrom
      rw [if_pos (by omega)]
      congr 1

/-- Witness for C9 as amended, at the buffer `b"2\x5cr\x5cnXY\x5cr\x5cnQ"`:
the line parses as 2, enough bytes follow, and the cut yields `b"XY"` with
remainder `b"Q"`. -/
theorem c9_chunk_cut_amended_witness :
    http11Chunk (strCps "2" ++ 13 :: 10 :: (strCps "XY" ++ [13, 10] ++ strCps "Q")) =
      (some (pySliceTo (strCps "XY" ++ [13, 10] ++ strCps "Q") 2),
        pySliceFrom (strCps "XY" ++ [13, 10] ++ strCps "Q") 4) := by
  exact ((c9_chunk_cut_amended.2.2.1 (strCps "2") (strCps "XY" ++ [13, 10] ++ strCps "Q") 2
    (by decide) (by decide)).1 (by decide))

/-- C8: `guarantee_type` coercion contract. An int-tagged string starting
with `0x`/`0o`/`0b` parses the remainder in base 16/8/2, any other string
parses as decimal (all with `int(.)` semantics, a failed parse raising);
a bool-tagged string coerces to `True` exactly when its lower-cased form is
one of `1`, `t`, `true`, `y`, `yes`; a `None`/`any` tag passes the value
through unchanged. -/
theorem c8_guarantee_type_coercion :
    (∀ s : List Nat, s.take 2 = strCps "0x" →
      guarantee_type .rInt (.pstr s) = (pyIntParse 16 (s.drop 2)).map .pint) ∧
    (∀ s : List Nat, s.take 2 = strCps "0o" →
      guarantee_type .rInt (.pstr s) = (pyIntParse 8 (s.drop 2)).map .pint) ∧
    (∀ s : List Nat, s.take 2 = strCps "0b" →
      guarantee_type .rInt (.pstr s) = (pyIntParse 2 (s.drop 2)).map .pint) ∧
    (∀ s : List Nat, s.take 2 ≠ strCps "0x" → s.take 2 ≠ strCps "0o" →
      s.take 2 ≠ strCps "0b" →
      guarantee_type .rInt (.pstr s) = (pyIntParse 10 s).map .pint) ∧
    (∀ s : List Nat, guarantee_type .rBool (.pstr s) =
      some (.pbool (decide (asciiLower s ∈ TRUE_STRINGS)))) ∧
    (∀ s : List Nat, asciiLower s ∈ TRUE_STRINGS ↔
      (asciiLower s = strCps "1" ∨ asciiLower s = strCps "t" ∨
        asciiLower s = strCps "true" ∨ asciiLower s = strCps "y" ∨
        asciiLower s = strCps "yes")) ∧
    (∀ v, guarantee_type .rNone v = some v) ∧
    (∀ v, guarantee_type .rAny v = some v) := by
  refine ⟨?_, ?_, ?_, ?_, ?_, ?_, fun v => rfl, fun v => rfl⟩
  · intro s h
    simp only [guarantee_type, Option.some_bind, intFromPyStr, if_pos h]
  · intro s h
    have hx : s.take 2 ≠ strCps "0x" := by
      rw [h]; decide
    simp only [guarantee_type, Option.some_bind, intFromPyStr, if_neg hx, if_pos h]
  · intro s h
    have hx : s.take 2 ≠ strCps "0x" := by
      rw [h]; decide
    have ho : s.take 2 ≠ strCps "0o" := by
      rw [h]; decide
    simp only [guarantee_type, Option.some_bind, intFromPyStr, if_neg hx, if_neg ho,
      if_pos h]
  · intro s hx ho hb
    simp only [guarantee_type, Option.some_bind, intFromPyStr, if_neg hx, if_neg ho,
      if_neg hb]
  · intro s
    rfl
  · intro s
    simp [TRUE_STRINGS]
    tauto

/-- Witness for C8: `"0xa"` coerces to 10 under an int tag, and `"TRUE"`
coerces to true under a bool tag. -/
theorem c8_guarantee_type_coercion_witness :
    guarantee_type .rInt (.pstr (strCps "0xa")) =
      (pyIntParse 16 ((strCps "0xa").drop 2)).map .pint ∧
    guarantee_type .rBool (.pstr (strCps "TRUE")) =
      some (.pbool (decide (asciiLower (strCps "TRUE") ∈ TRUE_STRINGS))) := by
  exact ⟨c8_guarantee_type_coercion.1 (strCps "0xa") (by decide),
    c8_guarantee_type_coercion.2.2.2.2.1 (strCps "TRUE")⟩

/-- C4: an ordinary exception from an api handler (not Redirect, NeedInfo
or PermissionError, which re-raise) yields a 500 whose body dict carries the
error string, and a `traceback` entry exactly when the request was authed. -/
theorem c4_handler_exception_500 :
    ∀ (authed : Bool) (trace : List Nat) (e : PyExc),
      (∀ t, e ≠ .redirectExc t) →
      (∀ m r v2, e ≠ .needInfoExc m r v2) →
      (∀ m, e ≠ .permissionErrorExc m) →
      ∃ body, handle_api_exception authed trace e = .ok (500, body) ∧
        lookupKVs body kError = some (.pstr (excMsg e)) ∧
        ((lookupKVs body kTraceback).isSome ↔ authed = true) := by
  intro authed trace e h1 h2 h3
  have hkk : (kError = kTraceback) = False := by
    simp [kError, kTraceback, strCps]
  cases e with
  | redirectExc t => exact absurd rfl (h1 t)
  | needInfoExc m r v2 => exact absurd rfl (h2 m r v2)
  | permissionErrorExc m => exact absurd rfl (h3 m)
  | attributeErrorExc m =>
    cases authed <;> exact ⟨_, rfl, by simp [lookupKVs], by simp [lookupKVs, hkk]⟩
  | typeErrorExc m =>
    cases authed <;> exact ⟨_, rfl, by simp [lookupKVs], by simp [lookupKVs, hkk]⟩
  | unicodeDecodeErrorExc m =>
    cases authed <;> exact ⟨_, rfl, by simp [lookupKVs], by simp [lookupKVs, hkk]⟩
  | valueErrorExc m =>
    cases authed <;> exact ⟨_, rfl, by simp [lookupKVs], by simp [lookupKVs, hkk]⟩
  | ioErrorExc m =>
    cases authed <;> exact ⟨_, rfl, by simp [lookupKVs], by simp [lookupKVs, hkk]⟩
  | runtimeErrorExc m =>
    cases authed <;> exact ⟨_, rfl, by simp [lookupKVs], by simp [lookupKVs, hkk]⟩

/-- Witness for C4 at a concrete ValueError: authed 500 body has both keys. -/
theorem c4_handler_exception_500_witness :
    ∃ body, handle_api_exception true (strCps "tb") (.valueErrorExc (strCps "boom")) =
        .ok (500, body) ∧
      lookupKVs body kError = some (.pstr (excMsg (.valueErrorExc (strCps "boom")))) ∧
      ((lookupKVs body kTraceback).isSome ↔ true = true) := by
  exact c4_handler_exception_500 true (strCps "tb") (.valueErrorExc (strCps "boom"))
    (fun t h => PyExc.noConfusion h) (fun m r v2 h => PyExc.noConfusion h)
    (fun m h => PyExc.noConfusion h)

/-- C3: counterexample. The claim says resolution considers `raw_N`, `api_N`,
`public_raw_N`, `public_api_N` in that order with the first match winning,
but `_handle_http_request` first replaces the raw method by the wrapped api
method whenever the api method is an async generator function: on a registry
where both `raw_go` and an async-generator `api_go` exist, the authed request
is dispatched to the wrapped `api_go`, not to `raw_go`. The registry below
has two handlers, `false` (`raw_go`) and `true` (`api_go`, an async
generator). -/
theorem c3_handler_resolution_counterexample :
    resolve_method (fun a : Bool => a)
      ⟨fun _ => some false, fun _ => some true, fun _ => none, fun _ => none⟩
      true (strCps "go") = .ok (some (.wrappedH true)) ∧
    Dispatched.wrappedH true ≠ Dispatched.rawH false :=
  ⟨rfl, fun h => Dispatched.noConfusion h⟩

/-- C3 (amended): for an authed request, the private pair `(raw_N, api_N)` is
consulted first and the public pair `(public_raw_N, public_api_N)` only when
both private entries are missing; for a non-authed request only the public
pair is eligible. Dispatch from the selected pair runs the raw method before
the api method, except that an api method which is an async generator
function is wrapped by `_wrap_async_generator` and dispatched in place of any
raw method. With no match (default fallback raising) the response is 404 with
the JSON `{"error": "Not Found"}` body when authed, 403 with a JSON error
body when not. -/
theorem c3_handler_resolution_amended :
    (∀ (α : Type) (gen : α → Bool) (reg : ApiRegistry α) (name : List Nat) (a : α),
      reg.apiM name = some a → gen a = true →
      resolve_method gen reg true name = .ok (some (.wrappedH a))) ∧
    (∀ (α : Type) (gen : α → Bool) (reg : ApiRegistry α) (name : List Nat) (r : α),
      reg.rawM name = some r →
      (∀ a, reg.apiM name = some a → gen a = false) →
      resolve_method gen reg true name = .ok (some (.rawH r))) ∧
    (∀ (α : Type) (gen : α → Bool) (reg : ApiRegistry α) (name : List Nat) (a : α),
      reg.rawM name = none → reg.apiM name = some a → gen a = false →
      resolve_method gen reg true name = .ok (some (.apiH a))) ∧
    (∀ (α : Type) (gen : α → Bool) (reg : ApiRegistry α) (name : List Nat),
      reg.rawM name = none → reg.apiM name = none →
      resolve_method gen reg true name =
        match reg.publicRawM name, reg.publicApiM name with
        | none, none => .error (.attributeErrorExc name)
        | pr, pa => .ok (pickHandler gen (pa, pr))) ∧
    (∀ (α : Type) (gen : α → Bool) (reg : ApiRegistry α) (name : List Nat),
      resolve_method gen reg false name =
        match reg.publicRawM name, reg.publicApiM name with
        | none, none => .error (.permissionErrorExc name)
        | pr, pa => .ok (pickHandler gen (pa, pr))) ∧
    (∀ (name trace : List Nat),
      serve_http_exc_status (.attributeErrorExc name) = 404 ∧
      serve_http_exc_body trace (.attributeErrorExc name) =
        [(kError, .pstr (strCps "Not Found"))]) ∧
    (∀ (name trace : List Nat),
      serve_http_exc_status (.permissionErrorExc name) = 403 ∧
      serve_http_exc_body trace (.permissionErrorExc name) =
        [(kError, .pstr name)]) := by
  refine ⟨?_, ?_, ?_, ?_, ?_, fun name trace => ⟨rfl, rfl⟩, fun name trace => ⟨rfl, rfl⟩⟩
  · intro α gen reg name a ha hg
    unfold resolve_method get_api_methods pickHandler
    rcases hr : reg.rawM name with _ | r <;> simp [hr, ha, hg, Except.map]
  · intro α gen reg name r hr hng
    unfold resolve_method get_api_methods pickHandler
    rcases ha : reg.apiM name with _ | a
    · simp [hr, ha, Except.map]
    · simp [hr, ha, hng a ha, Except.map]
  · intro α gen reg name a hr ha hg
    unfold resolve_method get_api_methods pickHandler
    simp [hr, ha, hg, Except.map]
  · intro α gen reg name hr ha
    unfold resolve_method get_api_methods
    rcases hpr : reg.publicRawM name with _ | pr <;>
      rcases hpa : reg.publicApiM name with _ | pa <;>
        simp [hr, ha, hpr, hpa, pickHandler, Except.map]
  · intro α gen reg name
    unfold resolve_method get_api_methods
    rcases hpr : reg.publicRawM name with _ | pr <;>
      rcases hpa : reg.publicApiM name with _ | pa <;>
        simp [hpr, hpa, pickHandler, Except.map]

/-- Witness for the amended C3: on a registry with a raw handler and a
non-generator api handler for the authed name, the raw handler is dispatched;
dropping the raw entry dispatches the awaited api handler. -/
theorem c3_handler_resolution_amended_witness :
    resolve_method (fun _ : Nat => false)
      ⟨fun _ => some 1, fun _ => some 2, fun _ => none, fun _ => none⟩
      true (strCps "go") = .ok (some (.rawH 1)) ∧
    resolve_method (fun _ : Nat => false)
      ⟨fun _ => none, fun _ => some 2, fun _ => none, fun _ => none⟩
      true (strCps "go") = .ok (some (.apiH 2)) :=
  ⟨c3_handler_resolution_amended.2.1 Nat (fun _ => false)
      ⟨fun _ => some 1, fun _ => some 2, fun _ => none, fun _ => none⟩
      (strCps "go") 1 rfl (fun _ _ => rfl),
    c3_handler_resolution_amended.2.2.1 Nat (fun _ => false)
      ⟨fun _ => none, fun _ => some 2, fun _ => none, fun _ => none⟩
      (strCps "go") 2 rfl rfl rfl⟩

theorem HttpResult_init_code_fields (mt : Option (List Nat)) (d : PyData)
    (rd : Option (List Nat)) (hc : Option Int) (r : HttpResultModel)
    (h : HttpResult_init mt d rd hc = some r) :
    r.httpCodeEntry =
      (match hc with
        | some c =>
          if c = 0 then
            (match rd with
              | some rr => if rr.isEmpty then none else some 302
              | none => none)
          else some c
        | none =>
          (match rd with
            | some rr => if rr.isEmpty then none else some 302
            | none => none)) ∧
    r.redirectToEntry =
      (match rd with
        | some rr => if rr.isEmpty then none else some rr
        | none => none) := by
  simp only [HttpResult_init] at h
  rw [Option.map_eq_some'] at h
  obtain ⟨d2, hconv, hr⟩ := h
  subst hr
  cases hc with
    | none =>
      cases rd with
      | none => exact ⟨rfl, rfl⟩
      | some rr => cases hrr : rr.isEmpty <;> simp [hrr]
    | some c =>
      by_cases hc0 : c = 0
      · subst hc0
        cases rd with
        | none => simp
        | some rr => cases hrr : rr.isEmpty <;> simp [hrr]
      · cases rd with
        | none => simp [hc0]
        | some rr => cases hrr : rr.isEmpty <;> simp [hrr, hc0]

/-- C10: `HttpResult` construction invariants. A `text/` mimetype decodes a
bytes or bytearray payload to its UTF-8 string; any other nonempty mimetype
encodes a str payload to UTF-8 bytes and converts a bytearray to bytes; the
`http_code` property is 200 unless a nonzero `http_code` argument was
supplied, except that a truthy `redirect_to` sets it to 302 (recording the
target) when no explicit code overrides it. -/
theorem c10_http_result_invariants :
    (∀ mt b rd hc r, mt.take 5 = strCps "text/" →
      HttpResult_init (some mt) (.dbytes b) rd hc = some r →
      ∃ s, utf8Decode b = some s ∧ r.data = .dstr s) ∧
    (∀ mt b rd hc r, mt.take 5 = strCps "text/" →
      HttpResult_init (some mt) (.dbytearray b) rd hc = some r →
      ∃ s, utf8Decode b = some s ∧ r.data = .dstr s) ∧
    (∀ mt s rd hc r, mt ≠ [] → mt.take 5 ≠ strCps "text/" →
      HttpResult_init (some mt) (.dstr s) rd hc = some r →
      ∃ b, utf8Encode s = some b ∧ r.data = .dbytes b) ∧
    (∀ mt b rd hc r, mt ≠ [] → mt.take 5 ≠ strCps "text/" →
      HttpResult_init (some mt) (.dbytearray b) rd hc = some r →
      r.data = .dbytes b) ∧
    (∀ mt d r, HttpResult_init mt d none none = some r →
      HttpResult_http_code r = 200) ∧
    (∀ mt d rd r, rd ≠ [] → HttpResult_init mt d (some rd) none = some r →
      HttpResult_http_code r = 302 ∧ r.redirectToEntry = some rd) ∧
    (∀ mt d rd hc r, hc ≠ 0 → HttpResult_init mt d rd (some hc) = some r →
      HttpResult_http_code r = hc) := by
  refine ⟨?_, ?_, ?_, ?_, ?_, ?_, ?_⟩
  · intro mt b rd hc r htext hinit
    have hne : mt.isEmpty = false := by
      cases mt
      · simp [strCps] at htext
      · rfl
    simp only [HttpResult_init, hne, Bool.false_eq_true, if_false, if_pos htext] at hinit
    rcases hdec : utf8Decode b with _ | s
    · rw [hdec] at hinit
      simp at hinit
    · rw [hdec] at hinit
      simp at hinit
      exact ⟨s, rfl, by rw [← hinit]⟩
  · intro mt b rd hc r htext hinit
    have hne : mt.isEmpty = false := by
      cases mt
      · simp [strCps] at htext
      · rfl
    simp only [HttpResult_init, hne, Bool.false_eq_true, if_false, if_pos htext] at hinit
    rcases hdec : utf8Decode b with _ | s
    · rw [hdec] at hinit
      simp at hinit
    · rw [hdec] at hinit
      simp at hinit
      exact ⟨s, rfl, by rw [← hinit]⟩
  · intro mt s rd hc r hne htext hinit
    have hne2 : mt.isEmpty = false := by
      cases mt
      · exact absurd rfl hne
      · rfl
    simp only [HttpResult_init, hne2, Bool.false_eq_true, if_false, if_neg htext] at hinit
    rcases henc : utf8Encode s with _ | b
    · rw [henc] at hinit
      simp at hinit
    · rw [henc] at hinit
      simp at hinit
      exact ⟨b, rfl, by rw [← hinit]⟩
  · intro mt b rd hc r hne htext hinit
    have hne2 : mt.isEmpty = false := by
      cases mt
      · exact absurd rfl hne
      · rfl
    simp only [HttpResult_init, hne2, Bool.false_eq_true, if_false, if_neg htext] at hinit
    simp at hinit
    rw [← hinit]
  · intro mt d r hinit
    have hfields := HttpResult_init_code_fields mt d none none r hinit
    unfold HttpResult_http_code
    rw [hfields.1]
    rfl
  · intro mt d rd r hrd hinit
    have hfields := HttpResult_init_code_fields mt d (some rd) none r hinit
    have hrd2 : rd.isEmpty = false := by
      cases rd
      · exact absurd rfl hrd
      · rfl
    unfold HttpResult_http_code
    rw [hfields.1, hfields.2]
    simp [hrd2]
  · intro mt d rd hc r hhc hinit
    have hfields := HttpResult_init_code_fields mt d rd (some hc) r hinit
    unfold HttpResult_http_code
    rw [hfields.1]
    simp [hhc]

/-- Witness for C10: a `text/plain` result built from the bytes `b"hi"`
stores the decoded string and reports code 200; a redirect sets 302. -/
theorem c10_http_result_invariants_witness :
    (∃ s, utf8Decode [104, 105] = some s ∧
      ∀ r, HttpResult_init (some (strCps "text/plain")) (.dbytes [104, 105]) none none =
          some r → r.data = .dstr s) ∧
    (∀ r, HttpResult_init (some (strCps "text/plain")) (.dbytes [104, 105])
        (some (strCps "/x")) none = some r →
      HttpResult_http_code r = 302) := by
  constructor
  · refine ⟨[104, 105], rfl, ?_⟩
    intro r hinit
    obtain ⟨s, hs, hd⟩ := c10_http_result_invariants.1 (strCps "text/plain")
      [104, 105] none none r (by decide) hinit
    have hse : s = [104, 105] := by
      rw [show utf8Decode [104, 105] = some [104, 105] from rfl] at hs
      injection hs with hs2
      exact hs2.symm
    rw [hd, hse]
  · intro r hinit
    exact (c10_http_result_invariants.2.2.2.2.2.1 (strCps "text/plain")
      (.dbytes [104, 105]) (strCps "/x") r (by decide) hinit).1

theorem strContains_append_right (a rest needle : List Nat)
    (h : strContains a needle = true) :
    strContains (a ++ rest) needle = true := by
  induction a with
  | nil =>
    rw [strContains.eq_def] at h
    by_cases hp : needle.isPrefixOf ([] : List Nat)
    · have hnil : needle = [] := by
        have := List.isPrefixOf_iff_prefix.mp hp
        simpa using this
      subst hnil
      rw [strContains.eq_def]
      rw [if_pos (by simp [List.isPrefixOf_iff_prefix])]
    · rw [if_neg hp] at h
      simp at h
  | cons c t ih =>
    rw [strContains.eq_def] at h
    by_cases hp : needle.isPrefixOf (c :: t)
    · have hp2 : needle.isPrefixOf ((c :: t) ++ rest) := by
        rw [List.isPrefixOf_iff_prefix] at hp ⊢
        exact hp.trans (List.prefix_append _ _)
      rw [strContains.eq_def, if_pos hp2]
    · rw [if_neg hp] at h
      have ih2 := ih h
      rw [List.cons_append, strContains.eq_def]
      by_cases hp3 : needle.isPrefixOf (c :: (t ++ rest))
      · rw [if_pos hp3]
      · rw [if_neg hp3]
        exact ih2

theorem strContains_of_firstLine (head needle : List Nat)
    (h : strContains (headFirstLine head) needle = true) :
    strContains head needle = true := by
  obtain ⟨rest, hrest⟩ := List.takeWhile_prefix
    (l := head) (p := fun c => decide (c ≠ 10 ∧ c ≠ 13))
  rw [← hrest]
  exact strContains_append_right _ rest needle h

/-- C2 counterexample: with secret `s` and path `/s` (no trailing slash),
the path does not start with `/s/`, yet `validate_request_header` does not
return it unchanged: `(path + '/').startswith('/s/')` fires and the prefix
is stripped, returning the empty path. -/
theorem c2_request_auth_counterexample :
    validate_request_header (strCps "s") (strCps "/s") (strCps "GET /s HTTP/1.1") =
      .ok [] ∧
    (strCps "/s/").isPrefixOf (strCps "/s") = false ∧
    ([] : List Nat) ≠ strCps "/s" := by
  exact ⟨rfl, by decide, by decide⟩

/-- C2 (amended): a request whose head carries the secret anywhere in its
first line passes `validate_request_header` and is tagged authed; when the
(prefix-stripped) path starts with `/<secret>/` — or is exactly `/<secret>`,
the case the claim missed — exactly the leading `/<secret>` is removed, and
otherwise the path is returned unchanged; a head without the secret raises
`PermissionError`, the request is tagged not authed, and public handlers
remain reachable through the public resolution pair. -/
theorem c2_request_auth_amended :
    (∀ secret head path, strContains (headFirstLine head) secret = true →
      ∃ p, validate_request_header secret path head = .ok p ∧
        (serveAuthTag secret path head).1 = true) ∧
    (∀ secret rest head, strContains head secret = true →
      validate_request_header secret (47 :: (secret ++ 47 :: rest)) head =
        .ok (47 :: rest)) ∧
    (∀ secret head, strContains head secret = true →
      validate_request_header secret (47 :: secret) head = .ok []) ∧
    (∀ secret path head, strContains head secret = true →
      ¬ (47 :: secret ++ [47]).isPrefixOf (path ++ [47]) = true →
      validate_request_header secret path head = .ok path) ∧
    (∀ secret path head, strContains head secret = false →
      validate_request_header secret path head = .error (.permissionErrorExc []) ∧
      (serveAuthTag secret path head).1 = false) ∧
    (∀ (α : Type) (gen : α → Bool) (reg : ApiRegistry α) (name : List Nat) (h : α),
      reg.publicRawM name = none → reg.publicApiM name = some h →
      resolve_method gen reg false name =
        .ok (some (if gen h then .wrappedH h else .apiH h))) := by
  refine ⟨?_, ?_, ?_, ?_, ?_, ?_⟩
  · intro secret head path h
    have hc := strContains_of_firstLine head secret h
    have hval : ∃ p, validate_request_header secret path head = .ok p := by
      unfold validate_request_header
      rw [if_neg (by simp [hc])]
      by_cases hp : (47 :: secret ++ [47]).isPrefixOf (path ++ [47])
      · rw [if_pos hp]
        exact ⟨_, rfl⟩
      · rw [if_neg hp]
        exact ⟨_, rfl⟩
    obtain ⟨p, hval⟩ := hval
    refine ⟨p, hval, ?_⟩
    unfold serveAuthTag
    rw [hval]
  · intro secret rest head hc
    unfold validate_request_header
    rw [if_neg (by simp [hc])]
    have hp : (47 :: secret ++ [47]).isPrefixOf
        ((47 :: (secret ++ 47 :: rest)) ++ [47]) := by
      rw [List.isPrefixOf_iff_prefix]
      refine ⟨rest ++ [47], ?_⟩
      simp
    rw [if_pos hp]
    have hd : (47 :: (secret ++ 47 :: rest)).drop (secret.length + 1) = 47 :: rest := by
      rw [List.drop_succ_cons, List.drop_left]
    rw [hd]
  · intro secret head hc
    unfold validate_request_header
    rw [if_neg (by simp [hc])]
    have hp : (47 :: secret ++ [47]).isPrefixOf ((47 :: secret) ++ [47]) := by
      rw [List.isPrefixOf_iff_prefix]
    rw [if_pos hp]
    have hd : (47 :: secret).drop (secret.length + 1) = [] := by
      rw [List.drop_succ_cons]
      simp
    rw [hd]
  · intro secret path head hc hp
    unfold validate_request_header
    rw [if_neg (by simp [hc]), if_neg hp]
  · intro secret path head hc
    have hval : validate_request_header secret path head =
        .error (.permissionErrorExc []) := by
      unfold validate_request_header
      rw [if_pos (by simp [hc])]
    refine ⟨hval, ?_⟩
    unfold serveAuthTag
    rw [hval]
  · intro α gen reg name h hpr hpa
    unfold resolve_method get_api_methods pickHandler
    rcases hg : gen h <;> simp [hpr, hpa, hg, Except.map]

/-- Witness for C2 as amended: secret `s`, path `/s/x`, head carrying the
secret: the validator strips exactly `/s`. -/
theorem c2_request_auth_amended_witness :
    validate_request_header (strCps "s") (47 :: (strCps "s" ++ 47 :: strCps "x"))
      (strCps "GET /s/x HTTP/1.1") = .ok (47 :: strCps "x") := by
  exact c2_request_auth_amended.2.1 (strCps "s") (strCps "x")
    (strCps "GET /s/x HTTP/1.1") (by decide)

theorem countMagic_cons (a : PyVal) (rest : List PyVal) :
    countMagic (a :: rest) = (if isMagicArg a then 1 else 0) + countMagic rest := by
  unfold countMagic
  rw [List.filter_cons]
  cases h : isMagicArg a
  · simp
  · simp [Nat.add_comm]

theorem fd_from_magic_arg_plain (a : PyVal) (fds : List Nat)
    (h : isMagicArg a = false) : fd_from_magic_arg a fds = some (.plain a, fds) := by
  cases a with
  | pstr s =>
    simp only [isMagicArg, Bool.or_eq_false_iff] at h
    unfold fd_from_magic_arg
    dsimp only
    rw [if_neg (by simp [h.1]), if_neg (by simp [h.2])]
  | pnone => rfl
  | pbool b => rfl
  | pint n => rfl
  | pbytes b => rfl
  | plist xs => rfl
  | pdict kvs => rfl

theorem fd_from_magic_arg_magic (a : PyVal) (fd : Nat) (fds : List Nat)
    (hm : isMagicArg a = true) (hok : magicArgOk a = true) :
    ∃ t, fd_from_magic_arg a (fd :: fds) = some (t, fds) ∧ transFd t = some fd := by
  cases a with
  | pstr s =>
    by_cases hs : MAGIC_SOCK.isPrefixOf s = true
    · unfold magicArgOk at hok
      dsimp only at hok
      rw [if_pos hs] at hok
      unfold fd_from_magic_arg
      dsimp only
      rw [if_pos hs]
      rcases hsp : (pySplitAll 45 s).tail with _ | ⟨f, rest1⟩
      · rw [hsp] at hok; simp at hok
      · rcases rest1 with _ | ⟨t2, rest2⟩
        · rw [hsp] at hok; simp at hok
        · rcases rest2 with _ | ⟨p, rest3⟩
          · rw [hsp] at hok; simp at hok
          · rcases rest3 with _ | ⟨x, rest4⟩
            · rw [hsp] at hok
              simp only [Bool.and_eq_true, Option.isSome_iff_exists] at hok
              obtain ⟨⟨⟨fv, hfv⟩, ⟨tv, htv⟩⟩, ⟨pv, hpv⟩⟩ := hok
              dsimp only
              rw [hfv, htv, hpv]
              exact ⟨.sockObj fd fv tv pv, rfl, rfl⟩
            · rw [hsp] at hok; simp at hok
    · have hf : MAGIC_FD.isPrefixOf s = true := by
        simp only [isMagicArg, Bool.or_eq_true] at hm
        rcases hm with hm | hm
        · exact absurd hm hs
        · exact hm
      unfold magicArgOk at hok
      dsimp only at hok
      rw [if_neg hs, if_pos hf] at hok
      unfold fd_from_magic_arg
      dsimp only
      rw [if_neg hs, if_pos hf]
      rcases hsp : pySplitAll 45 s with _ | ⟨f, rest1⟩
      · rw [hsp] at hok; simp at hok
      · rcases rest1 with _ | ⟨mode, rest2⟩
        · rw [hsp] at hok; simp at hok
        · rcases rest2 with _ | ⟨x, rest3⟩
          · exact ⟨.fileObj fd mode, rfl, rfl⟩
          · rw [hsp] at hok; simp at hok
  | pnone => simp [isMagicArg] at hm
  | pbool b => simp [isMagicArg] at hm
  | pint n => simp [isMagicArg] at hm
  | pbytes b => simp [isMagicArg] at hm
  | plist xs => simp [isMagicArg] at hm
  | pdict kvs => simp [isMagicArg] at hm

/-- C6: descriptor-placeholder translation. Translating the positional
arguments maps each placeholder to exactly one descriptor consumed from the
head of the descriptor list, left to right, so the k-th placeholder
receives the k-th descriptor and every other argument is unchanged; on the
sending side a socket encodes as `_SO_BRE_MAGIC_-<family>-<type>-<proto>`
with decimal integers and any other object with a `fileno` as
`_FD_BRE_MAGIC_-<mode>`. -/
theorem c6_fd_placeholder_translation :
    (∀ (args : List PyVal) (fds : List Nat),
      (∀ a ∈ args, magicArgOk a = true) → countMagic args ≤ fds.length →
      ∃ out, translate_args args fds = some (out, fds.drop (countMagic args)) ∧
        out.length = args.length ∧
        (∀ i (x : PyVal), args[i]? = some x →
          (isMagicArg x = false → out[i]? = some (.plain x)) ∧
          (isMagicArg x = true →
            (out[i]?.bind transFd) = fds[countMagic (args.take i)]?))) ∧
    (∀ f t p, fd_to_magic_arg (.sockArg f t p) =
      .pstr (MAGIC_SOCK ++ [45] ++ intToDec f ++ [45] ++ intToDec t ++ [45] ++
        intToDec p)) ∧
    (∀ m, fd_to_magic_arg (.fileLikeArg m) = .pstr (MAGIC_FD ++ [45] ++ m)) ∧
    (∀ v, fd_to_magic_arg (.plainArg v) = v) := by
  refine ⟨?_, fun f t p => rfl, fun m => rfl, fun v => rfl⟩
  intro args
  induction args with
  | nil =>
    intro fds hok hcnt
    refine ⟨[], by simp [translate_args, countMagic], rfl, ?_⟩
    intro i x hix
    simp at hix
  | cons a rest ih =>
    intro fds hok hcnt
    rw [countMagic_cons] at hcnt
    by_cases hm : isMagicArg a = true
    · rw [if_pos hm] at hcnt
      cases fds with
      | nil => simp at hcnt
      | cons fd fds2 =>
        simp at hcnt
        obtain ⟨t, htr, htfd⟩ := fd_from_magic_arg_magic a fd fds2 hm (hok a (by simp))
        obtain ⟨out, hout, hlen, hidx⟩ :=
          ih fds2 (fun x hx => hok x (by simp [hx])) (by omega)
        refine ⟨t :: out, ?_, by simp [hlen], ?_⟩
        · unfold translate_args
          rw [htr]
          dsimp only
          rw [hout]
          dsimp only
          rw [countMagic_cons, if_pos hm]
          have : (fd :: fds2).drop (1 + countMagic rest) =
              fds2.drop (countMagic rest) := by
            rw [Nat.add_comm]
            rfl
          rw [this]
        · intro i x hix
          cases i with
          | zero =>
            simp at hix
            subst hix
            constructor
            · intro hmf
              rw [hm] at hmf
              cases hmf
            · intro _
              simp [htfd, countMagic]
          | succ j =>
            have hix2 : rest[j]? = some x := by simpa using hix
            have hidx2 := hidx j x hix2
            constructor
            · intro hmf
              have := hidx2.1 hmf
              simpa using this
            · intro hmf
              have hrec := hidx2.2 hmf
              have hcm : countMagic ((a :: rest).take (j + 1)) =
                  1 + countMagic (rest.take j) := by
                rw [List.take_succ_cons, countMagic_cons, if_pos hm]
              rw [hcm]
              have hfds : (fd :: fds2)[1 + countMagic (rest.take j)]? =
                  fds2[countMagic (rest.take j)]? := by
                rw [Nat.add_comm]
                simp
              rw [hfds]
              simpa using hrec
    · have hm2 : isMagicArg a = false := by
        cases h2 : isMagicArg a
        · rfl
        · exact absurd h2 hm
      rw [if_neg hm] at hcnt
      simp at hcnt
      obtain ⟨out, hout, hlen, hidx⟩ :=
        ih fds (fun x hx => hok x (by simp [hx])) hcnt
      refine ⟨.plain a :: out, ?_, by simp [hlen], ?_⟩
      · unfold translate_args
        rw [fd_from_magic_arg_plain a fds hm2]
        dsimp only
        rw [hout]
        dsimp only
        rw [countMagic_cons, if_neg hm]
        simp
      · intro i x hix
        cases i with
        | zero =>
          simp at hix
          subst hix
          constructor
          · intro _
            simp
          · intro hmf
            rw [hmf] at hm2
            cases hm2
        | succ j =>
          have hix2 : rest[j]? = some x := by simpa using hix
          have hidx2 := hidx j x hix2
          constructor
          · intro hmf
            have := hidx2.1 hmf
            simpa using this
          · intro hmf
            have hrec := hidx2.2 hmf
            have hcm : countMagic ((a :: rest).take (j + 1)) =
                countMagic (rest.take j) := by
              rw [List.take_succ_cons, countMagic_cons, if_neg hm]
              simp
            rw [hcm]
            simpa using hrec

/-- Witness for C6: translating `['_FD_BRE_MAGIC_-r', 'x']` with
descriptors `[7, 9]` hands descriptor 7 to the placeholder, leaves `'x'`
unchanged and keeps `[9]` unconsumed. -/
theorem c6_fd_placeholder_translation_witness :
    ∃ out, translate_args
        [PyVal.pstr (MAGIC_FD ++ [45, 114]), PyVal.pstr (strCps "x")] [7, 9] =
        some (out, ([7, 9] : List Nat).drop
          (countMagic [PyVal.pstr (MAGIC_FD ++ [45, 114]), PyVal.pstr (strCps "x")])) ∧
      out.length = 2 ∧
      (∀ i (x : PyVal),
        ([PyVal.pstr (MAGIC_FD ++ [45, 114]), PyVal.pstr (strCps "x")])[i]? = some x →
        (isMagicArg x = false → out[i]? = some (.plain x)) ∧
        (isMagicArg x = true → (out[i]?.bind transFd) =
          ([7, 9] : List Nat)[countMagic
            (([PyVal.pstr (MAGIC_FD ++ [45, 114]),
              PyVal.pstr (strCps "x")]).take i)]?)) := by
  exact c6_fd_placeholder_translation.1
    [PyVal.pstr (MAGIC_FD ++ [45, 114]), PyVal.pstr (strCps "x")] [7, 9]
    (by decide)
    (by decide)

theorem http11Finish_err (request : List Nat) (found : Option Http11Found)
    (wb : Int) (e : PyExc) (h : http11Finish request found wb = .error e) :
    (∃ m, e = .valueErrorExc m) ∨ (∃ m, e = .ioErrorExc m) := by
  unfold http11Finish at h
  rcases found with _ | f
  · injection h with h
    exact Or.inl ⟨_, h.symm⟩
  · dsimp only at h
    by_cases hwb : wb ≠ 0
    · rw [if_pos hwb] at h
      injection h with h
      exact Or.inr ⟨_, h.symm⟩
    · rw [if_neg hwb] at h
      exact Except.noConfusion h

theorem http11Loop_err_kinds (maxSize : Nat) :
    ∀ (reads : List (List Nat)) (request : List Nat) (found : Option Http11Found)
      (wb : Int) (e : PyExc),
      http11Loop maxSize reads request found wb = .error e →
      (∃ m, e = .valueErrorExc m) ∨ (∃ m, e = .ioErrorExc m) := by
  intro reads
  induction reads with
  | nil =>
    intro request found wb e h
    rw [http11Loop] at h
    by_cases hwb : wb ≤ 0
    · rw [if_pos hwb] at h
      exact http11Finish_err _ _ _ _ h
    · rw [if_neg hwb] at h
      exact http11Finish_err _ _ _ _ h
  | cons r rs ih =>
    intro request found wb e h
    rw [http11Loop] at h
    by_cases hwb : wb ≤ 0
    · rw [if_pos hwb] at h
      exact http11Finish_err _ _ _ _ h
    · rw [if_neg hwb] at h
      dsimp only at h
      by_cases hre : r.isEmpty = true
      · rw [if_pos hre] at h
        exact http11Finish_err _ _ _ _ h
      · rw [if_neg hre] at h
        by_cases hsz : (request ++ r).length > maxSize
        · rw [if_pos hsz] at h
          injection h with h
          exact Or.inl ⟨_, h.symm⟩
        · rw [if_neg hsz] at h
          rcases found with _ | f
          · rcases htf : http11TryFind (request ++ r) with _ | ⟨hdr, hend, eomLen⟩
            · rw [htf] at h
              exact ih _ _ _ _ h
            · rw [htf] at h
              dsimp only at h
              rcases hph : parseHeaderLines (pySplitlines hdr).tail with _ | headers
              · rw [hph] at h
                injection h with h
                exact Or.inl ⟨_, h.symm⟩
              · rw [hph] at h
                dsimp only at h
                rcases hcl : dictLookupLast headers CONTENT_LENGTH with _ | cs
                · rw [hcl] at h
                  exact ih _ _ _ _ h
                · rw [hcl] at h
                  dsimp only at h
                  rcases hpi : pyIntParse 10 cs with _ | clen
                  · rw [hpi] at h
                    injection h with h
                    exact Or.inl ⟨_, h.symm⟩
                  · rw [hpi] at h
                    exact ih _ _ _ _ h
          · exact ih _ _ _ _ h

/-- C5 counterexample: a connection carrying only `b"G"` has no blank-line
terminated header block, `_http11` raises `ValueError`, and the `except`
ladder of `_serve_http` answers 500, not the claimed 400 (its 400 arm
covers only `TypeError` and `UnicodeDecodeError`). -/
theorem c5_parse_error_counterexample :
    http11 WORKER_HTTP_REQUEST_MAX_SIZE [[71]] =
      .error (.valueErrorExc (strCps "Header not found in HTTP data")) ∧
    serve_http_exc_status (.valueErrorExc (strCps "Header not found in HTTP data")) =
      500 ∧
    ((500 : Int) ≠ 400) := by
  exact ⟨rfl, rfl, by decide⟩

/-- C5 (amended): every parse failure of `_http11` — no blank-line
terminated head, a `Content-Length` promising more bytes than arrive, or a
request larger than `worker_http_request_max_size` (default 1048576) —
raises `ValueError` or `IOError`, and `_serve_http` rejects the request
with status 500 (not 400) and a JSON body carrying `error` (and
`traceback`) fields. -/
theorem c5_parse_error_amended :
    (∀ (maxSize : Nat) (reads : List (List Nat)) (e : PyExc) (trace : List Nat),
      http11 maxSize reads = .error e →
      serve_http_exc_status e = 500 ∧
      lookupKVs (serve_http_exc_body trace e) kError = some (.pstr (excMsg e)) ∧
      lookupKVs (serve_http_exc_body trace e) kTraceback = some (.pstr trace)) ∧
    WORKER_HTTP_REQUEST_MAX_SIZE = 1048576 := by
  refine ⟨?_, rfl⟩
  intro maxSize reads e trace h
  have hkk : (kError = kTraceback) = False := by
    simp [kError, kTraceback, strCps]
  rcases http11Loop_err_kinds maxSize reads [] none 8192 e h with ⟨m, he⟩ | ⟨m, he⟩ <;>
    subst he <;>
      exact ⟨rfl, by simp [serve_http_exc_body, lookupKVs, excMsg],
        by simp [serve_http_exc_body, lookupKVs, hkk]⟩

/-- Witness for C5 as amended, at the one-byte request `b"G"`. -/
theorem c5_parse_error_amended_witness :
    serve_http_exc_status (.valueErrorExc (strCps "Header not found in HTTP data")) =
      500 ∧
    lookupKVs (serve_http_exc_body (strCps "tb")
        (.valueErrorExc (strCps "Header not found in HTTP data"))) kError =
      some (.pstr (excMsg (.valueErrorExc (strCps "Header not found in HTTP data")))) ∧
    lookupKVs (serve_http_exc_body (strCps "tb")
        (.valueErrorExc (strCps "Header not found in HTTP data"))) kTraceback =
      some (.pstr (strCps "tb")) := by
  exact c5_parse_error_amended.1 WORKER_HTTP_REQUEST_MAX_SIZE [[71]]
    (.valueErrorExc (strCps "Header not found in HTTP data")) (strCps "tb") rfl

theorem utf8EncodeChar_two (c b2 : Nat) (h1 : 194 ≤ c) (h2 : c < 224)
    (h3 : 128 ≤ b2) (h4 : b2 < 192) :
    utf8EncodeChar ((c - 192) * 64 + (b2 - 128)) = some [c, b2] := by
  unfold utf8EncodeChar
  rw [if_neg (by omega), if_pos (by omega)]
  simp only [Option.some.injEq, List.cons.injEq, and_true]
  exact ⟨by omega, by omega⟩

theorem utf8EncodeChar_three (c b2 b3 : Nat) (h1 : 224 ≤ c) (h2 : c < 240)
    (h3 : 128 ≤ b2) (h4 : b2 < 192) (h5 : 128 ≤ b3) (h6 : b3 < 192)
    (h7 : 2048 ≤ (c - 224) * 4096 + (b2 - 128) * 64 + (b3 - 128))
    (h8 : ¬(55296 ≤ (c - 224) * 4096 + (b2 - 128) * 64 + (b3 - 128) ∧
            (c - 224) * 4096 + (b2 - 128) * 64 + (b3 - 128) ≤ 57343)) :
    utf8EncodeChar ((c - 224) * 4096 + (b2 - 128) * 64 + (b3 - 128)) = some [c, b2, b3] := by
  unfold utf8EncodeChar
  rw [if_neg (by omega), if_neg (by omega), if_pos (by omega), if_neg h8]
  simp only [Option.some.injEq, List.cons.injEq, and_true]
  exact ⟨by omega, by omega, by omega⟩

theorem utf8EncodeChar_four (c b2 b3 b4 : Nat) (h1 : 240 ≤ c) (h2 : c < 245)
    (h3 : 128 ≤ b2) (h4 : b2 < 192) (h5 : 128 ≤ b3) (h6 : b3 < 192)
    (h7 : 128 ≤ b4) (h8 : b4 < 192)
    (h9 : 65536 ≤ (c - 240) * 262144 + (b2 - 128) * 4096 + (b3 - 128) * 64 + (b4 - 128))
    (h10 : (c - 240) * 262144 + (b2 - 128) * 4096 + (b3 - 128) * 64 + (b4 - 128) < 1114112) :
    utf8EncodeChar ((c - 240) * 262144 + (b2 - 128) * 4096 + (b3 - 128) * 64 + (b4 - 128)) =
      some [c, b2, b3, b4] := by
  unfold utf8EncodeChar
  rw [if_neg (by omega), if_neg (by omega), if_neg (by omega), if_pos (by omega)]
  simp only [Option.some.injEq, List.cons.injEq, and_true]
  exact ⟨by omega, by omega, by omega, by omega⟩

theorem utf8DecodeChar_cons (b : Nat) (rest : List Nat) :
    utf8DecodeChar (b :: rest) =
      (if b < 128 then some (b, rest)
       else if 194 ≤ b && b < 224 then
         (match rest with
          | b2 :: r2 => if isCont b2 then some ((b - 192) * 64 + (b2 - 128), r2) else none
          | [] => none)
       else if 224 ≤ b && b < 240 then
         (match rest with
          | b2 :: b3 :: r2 =>
            let v := (b - 224) * 4096 + (b2 - 128) * 64 + (b3 - 128)
            if isCont b2 && isCont b3 && decide (2048 ≤ v) && !(decide (55296 ≤ v) && decide (v ≤ 57343)) then
              some (v, r2)
            else none
          | _ => none)
       else if 240 ≤ b && b < 245 then
         (match rest with
          | b2 :: b3 :: b4 :: r2 =>
            let v := (b - 240) * 262144 + (b2 - 128) * 4096 + (b3 - 128) * 64 + (b4 - 128)
            if isCont b2 && isCont b3 && isCont b4 && decide (65536 ≤ v) && decide (v < 1114112) then
              some (v, r2)
            else none
          | _ => none)
       else none) := rfl

set_option maxRecDepth 8000 in
theorem utf8DecodeChar_spec : ∀ bs v r, utf8DecodeChar bs = some (v, r) →
    r.length < bs.length ∧ ∃ e, utf8EncodeChar v = some e ∧ bs = e ++ r := by
  intro bs v r h
  rcases bs with _ | ⟨b, rest⟩
  · exact absurd h (by simp [utf8DecodeChar])
  rw [utf8DecodeChar_cons] at h
  split at h
  · rename_i hb
    cases h
    refine ⟨by simp only [List.length_cons]; omega, [_], ?_, rfl⟩
    unfold utf8EncodeChar
    rw [if_pos hb]
  split at h
  · rename_i hb1 hb2
    simp only [Bool.and_eq_true, decide_eq_true_eq] at hb2
    split at h
    · rename_i b2 r2
      split at h
      · rename_i hcont
        simp only [isCont, Bool.and_eq_true, decide_eq_true_eq] at hcont
        cases h
        exact ⟨by simp only [List.length_cons]; omega, [b, b2],
          utf8EncodeChar_two b b2 hb2.1 hb2.2 hcont.1 hcont.2, rfl⟩
      · exact absurd h (by simp)
    · exact absurd h (by simp)
  split at h
  · rename_i hb1 hb2 hb3
    simp only [Bool.and_eq_true, decide_eq_true_eq] at hb3
    split at h
    · rename_i b2 b3 r2
      dsimp only at h
      split at h
      · rename_i hcond
        simp only [isCont, Bool.and_eq_true, decide_eq_true_eq, Bool.not_eq_true',
          Bool.and_eq_false_iff, decide_eq_false_iff_not] at hcond
        cases h
        exact ⟨by simp only [List.length_cons]; omega, [b, b2, b3],
          utf8EncodeChar_three b b2 b3 hb3.1 hb3.2 (by omega) (by omega) (by omega) (by omega)
            (by omega) (by omega), rfl⟩
      · exact absurd h (by simp)
    · exact absurd h (by simp)
  split at h
  · rename_i hb1 hb2 hb3 hb4
    simp only [Bool.and_eq_true, decide_eq_true_eq] at hb4
    split at h
    · rename_i b2 b3 b4 r2
      dsimp only at h
      split at h
      · rename_i hcond
        simp only [isCont, Bool.and_eq_true, decide_eq_true_eq] at hcond
        cases h
        exact ⟨by simp only [List.length_cons]; omega, [b, b2, b3, b4],
          utf8EncodeChar_four b b2 b3 b4 hb4.1 hb4.2 (by omega) (by omega) (by omega) (by omega)
            (by omega) (by omega) (by omega) (by omega), rfl⟩
      · exact absurd h (by simp)
    · exact absurd h (by simp)
  · exact absurd h (by simp)

theorem utf8Encode_cons (v : Nat) (s e r : List Nat)
    (he : utf8EncodeChar v = some e) (hr : utf8Encode s = some r) :
    utf8Encode (v :: s) = some (e ++ r) := by
  rw [utf8Encode, he, hr]

theorem utf8DecodeGo_encode : ∀ fuel bs s, bs.length ≤ fuel →
    utf8DecodeGo fuel bs = some s → utf8Encode s = some bs := by
  intro fuel
  induction fuel with
  | zero =>
    intro bs s hl h
    rcases bs with _ | ⟨b, rest⟩
    · rw [utf8DecodeGo] at h
      cases h
      rfl
    · simp only [List.length_cons] at hl
      omega
  | succ n ih =>
    intro bs s hl h
    rcases bs with _ | ⟨b, rest⟩
    · rw [utf8DecodeGo] at h
      cases h
      rfl
    · rw [utf8DecodeGo] at h
      rcases hc : utf8DecodeChar (b :: rest) with _ | ⟨v, r2⟩
      · rw [hc] at h
        cases h
      · rw [hc] at h
        dsimp only at h
        rcases hr : utf8DecodeGo n r2 with _ | s2
        · rw [hr] at h
          cases h
        · rw [hr] at h
          cases h
          obtain ⟨hlen, e, he, hbs⟩ := utf8DecodeChar_spec _ _ _ hc
          have hrec : utf8Encode s2 = some r2 := by
            apply ih r2 s2 ?_ hr
            simp only [List.length_cons] at hl hlen
            omega
          rw [hbs]
          exact utf8Encode_cons v s2 e r2 he hrec

theorem utf8Encode_of_decode (bs s : List Nat) (h : utf8Decode bs = some s) :
    utf8Encode s = some bs :=
  utf8DecodeGo_encode bs.length bs s le_rfl h

theorem utf8Decode_ne_nil (b : Nat) (rest s : List Nat)
    (h : utf8Decode (b :: rest) = some s) : s ≠ [] := by
  unfold utf8Decode at h
  simp only [List.length_cons] at h
  rw [utf8DecodeGo] at h
  rcases hc : utf8DecodeChar (b :: rest) with _ | ⟨v, r2⟩
  · rw [hc] at h
    cases h
  · rw [hc] at h
    dsimp only at h
    rcases hr : utf8DecodeGo rest.length r2 with _ | s2
    · rw [hr] at h
      cases h
    · rw [hr] at h
      cases h
      simp

theorem b64CharVal_b64Char : ∀ v < 64, b64CharVal (b64Char v) = some v := by decide

theorem b64Char_ne_pad : ∀ v < 64, b64Char v ≠ 61 := by decide

theorem b64_roundtrip : ∀ b : List Nat, (∀ x ∈ b, x < 256) →
    b64decode (b64encode b) = some b := by
  intro b
  induction b using b64encode.induct with
  | case1 a b c t ih =>
    intro hb
    have ha : a < 256 := hb a (by simp)
    have hbb : b < 256 := hb b (by simp)
    have hc : c < 256 := hb c (by simp)
    rw [b64encode, b64decode]
    rw [b64CharVal_b64Char _ (by omega), b64CharVal_b64Char _ (by omega)]
    dsimp only
    rw [if_neg (fun hh => b64Char_ne_pad _ (by omega) hh.1),
      if_neg (fun hh => b64Char_ne_pad _ (by omega) hh.1)]
    rw [b64CharVal_b64Char _ (by omega), b64CharVal_b64Char _ (by omega)]
    dsimp only
    rw [ih (fun x hx => hb x (by simp [hx]))]
    simp only [Option.map_some']
    congr 2
    · omega
    · congr 1
      · omega
      · congr 1
        omega
  | case2 a b =>
    intro hb
    have ha : a < 256 := hb a (by simp)
    have hbb : b < 256 := hb b (by simp)
    rw [b64encode, b64decode]
    rw [b64CharVal_b64Char _ (by omega), b64CharVal_b64Char _ (by omega)]
    dsimp only
    rw [if_neg (fun hh => b64Char_ne_pad _ (by omega) hh.1), if_pos ⟨rfl, rfl⟩]
    rw [b64CharVal_b64Char _ (by omega)]
    dsimp only
    congr 2
    · omega
    · congr 1
      omega
  | case3 a =>
    intro hb
    have ha : a < 256 := hb a (by simp)
    rw [b64encode, b64decode]
    rw [b64CharVal_b64Char _ (by omega), b64CharVal_b64Char _ (by omega)]
    dsimp only
    rw [if_pos ⟨rfl, rfl, rfl⟩]
    congr 2
    omega
  | case4 =>
    intro hb
    rfl

theorem b64encode_ne_nil : ∀ b : List Nat, b ≠ [] → b64encode b ≠ []
  | [], h => absurd rfl h
  | [a], _ => by rw [b64encode]; simp
  | [a, b], _ => by rw [b64encode]; simp
  | a :: b :: c :: t, _ => by rw [b64encode]; simp

theorem objectHook_nonmagic (kvs : List (List Nat × PyVal))
    (h : magicSingleton kvs = false) : objectHook kvs = some (.pdict kvs) := by
  match kvs with
  | [] => rfl
  | [(k, v)] =>
    rw [magicSingleton] at h
    simp only [Bool.and_eq_false_iff, Bool.or_eq_false_iff,
      decide_eq_false_iff_not] at h
    rw [objectHook]
    by_cases hk : k = kB64
    · have htr : pyTruthy v = false := by
        rcases h with h | h
        · exact absurd hk h.1
        · exact h
      rw [if_pos hk, htr]
      simp
    · rw [if_neg hk]
      by_cases hk2 : k = kBytes
      · have htr : pyTruthy v = false := by
          rcases h with h | h
          · exact absurd hk2 h.2
          · exact h
        rw [if_pos hk2, htr]
        simp
      · rw [if_neg hk2]
  | (k1, v1) :: (k2, v2) :: rest => rfl

mutual

theorem from_to_json_tree : ∀ (f : Bool) (v : PyVal), wfVal v = true →
    from_json_tree (to_json_tree f v) = some v
  | _, .pnone, _ => rfl
  | _, .pbool _, _ => rfl
  | _, .pint _, _ => rfl
  | _, .pstr _, _ => rfl
  | f, .pbytes b, h => by
    rw [wfVal] at h
    simp only [Bool.and_eq_true, Bool.not_eq_true', List.isEmpty_eq_false,
      List.all_eq_true, decide_eq_true_eq] at h
    rcases hf : (if f then utf8Decode b else none) with _ | s
    · rw [to_json_tree, hf]
      dsimp only
      rw [from_json_tree, from_json_tree_kvs, from_json_tree, from_json_tree_kvs]
      dsimp only
      rw [Option.some_bind, objectHook]
      rw [if_pos rfl, pyTruthy]
      have hne : b64encode b ≠ [] := b64encode_ne_nil b h.1
      rw [show (!(b64encode b).isEmpty) = true by
        simpa [List.isEmpty_eq_false] using hne]
      rw [if_pos rfl]
      rw [pyB64decodeVal, b64_roundtrip b h.2]
      rfl
    · have hf2 : utf8Decode b = some s := by
        rcases f with _ | _
        · simp at hf
        · simpa using hf
      rw [to_json_tree, hf]
      dsimp only
      rw [from_json_tree, from_json_tree_kvs, from_json_tree, from_json_tree_kvs]
      dsimp only
      rw [Option.some_bind, objectHook]
      rw [if_neg (by decide), if_pos rfl, pyTruthy]
      have hs : s ≠ [] := by
        rcases b with _ | ⟨b0, rest⟩
        · exact absurd rfl h.1
        · exact utf8Decode_ne_nil b0 rest s hf2
      rw [show (!s.isEmpty) = true by simpa [List.isEmpty_eq_false] using hs]
      rw [if_pos rfl]
      rw [pyUtf8EncodeVal, utf8Encode_of_decode b s hf2]
      rfl
  | f, .plist xs, h => by
    rw [to_json_tree, from_json_tree, from_to_json_tree_list f xs (by rw [wfVal] at h; exact h)]
    rfl
  | f, .pdict kvs, h => by
    rw [wfVal] at h
    simp only [Bool.and_eq_true, Bool.not_eq_true'] at h
    rw [to_json_tree, from_json_tree, from_to_json_tree_kvs f kvs h.2]
    rw [Option.some_bind]
    exact objectHook_nonmagic kvs h.1

theorem from_to_json_tree_list : ∀ (f : Bool) (xs : List PyVal), wfValList xs = true →
    from_json_tree_list (to_json_tree_list f xs) = some xs
  | _, [], _ => rfl
  | f, x :: rest, h => by
    rw [wfValList] at h
    simp only [Bool.and_eq_true] at h
    rw [to_json_tree_list, from_json_tree_list,
      from_to_json_tree f x h.1, from_to_json_tree_list f rest h.2]

theorem from_to_json_tree_kvs : ∀ (f : Bool) (kvs : List (List Nat × PyVal)),
    wfValKVs kvs = true →
    from_json_tree_kvs (to_json_tree_kvs f kvs) = some kvs
  | _, [], _ => rfl
  | f, (k, v) :: rest, h => by
    rw [wfValKVs] at h
    simp only [Bool.and_eq_true] at h
    rw [to_json_tree_kvs, from_json_tree_kvs,
      from_to_json_tree f v h.1, from_to_json_tree_kvs f rest h.2]

end

/-- C7: counterexample. The claim promises `from_json(to_json(v)) == v` for
every JSON-representable value with bytes leaves, but the empty bytes value
`b''` breaks the round trip in both modes: its encoding is the extension
object with an empty-string payload, whose falsy value makes the `from_json`
object hook leave the dict alone, so the round trip returns
`{'__base64__': ''}` (default mode) or `{'__bytes__': ''}` (friendly mode)
instead of `b''`. -/
theorem c7_json_roundtrip_counterexample :
    from_json_tree (to_json_tree false (.pbytes [])) = some (.pdict [(kB64, .pstr [])]) ∧
    from_json_tree (to_json_tree true (.pbytes [])) = some (.pdict [(kBytes, .pstr [])]) ∧
    PyVal.pdict [(kB64, .pstr [])] ≠ .pbytes [] ∧
    PyVal.pdict [(kBytes, .pstr [])] ≠ .pbytes [] :=
  ⟨rfl, rfl, fun h => PyVal.noConfusion h, fun h => PyVal.noConfusion h⟩

/-- C7 (amended): for every value built from null, booleans, integers,
strings, lists and string-keyed maps whose bytes leaves are all nonempty
byte strings, and in which no single-entry map carries the key `__base64__`
or `__bytes__` with a truthy value, `from_json (to_json v) = v` holds in
default mode and in friendly mode alike. -/
theorem c7_json_roundtrip_amended (friendly : Bool) (v : PyVal)
    (h : wfVal v = true) :
    from_json_tree (to_json_tree friendly v) = some v :=
  from_to_json_tree friendly v h

/-- Witness for the amended C7 round trip: a concrete value exercising both
bytes encodings (non-UTF-8 bytes fall back to base64 even in friendly mode),
a nested list and a nested map. -/
theorem c7_json_roundtrip_amended_witness :
    wfVal (.plist [.pbytes [0, 255], .pbytes [104, 105], .pstr (strCps "hi"),
      .pint 5, .pdict [(strCps "k", .pbool true)]]) = true ∧
    from_json_tree (to_json_tree true (.plist [.pbytes [0, 255], .pbytes [104, 105],
      .pstr (strCps "hi"), .pint 5, .pdict [(strCps "k", .pbool true)]])) =
      some (.plist [.pbytes [0, 255], .pbytes [104, 105], .pstr (strCps "hi"),
        .pint 5, .pdict [(strCps "k", .pbool true)]]) :=
  ⟨rfl, c7_json_roundtrip_amended true _ rfl⟩

end Kettlingar
